import Mathlib

/-!
# canoe: trailer codec, size-suffix codec and runtime locator

A shallow embedding of the Go sources

* `internal/metadata/suffix.go` (`AppendByteSuffix`, `ParseByteSuffix`),
* `internal/metadata.go` (`ReadExecutableFooter`, `WriteExecutableFooter`),
* `internal/runtime/path.go` (`FindInPath`),
* `internal/runtime/runtime_windows.go` (`getLatestVersion`, `findRootForVersion`, `Find`),
* `internal/launch.go` (`LaunchApplication`),
* `cmd/canoegen/wrap.go` (`generate`, the memory options of `Execute`),

together with small models of the Go standard-library routines they call
(`strconv`, `unicode`, `strings`, `encoding/binary`, `os.File`, `os/exec`).

Conventions: a Go `string` / `[]byte` is a list of bytes; `uint64`, `uint32`, `uint16`
values are natural numbers, reduced modulo `2^w` wherever the Go code can wrap; a Go call
that can fail returns an `Outcome`, which also records a run-time panic.
-/

set_option maxRecDepth 8000

namespace Canoe

/-! ## Basic types -/

/-- One octet. -/
abbrev Byte := Fin 256

/-- A Go `string` (or `[]byte`): a finite sequence of octets. -/
abbrev GoString := List Byte

/-- The octet with the given numeric value (reduced modulo 256). -/
def byteOf (n : Nat) : Byte := Fin.ofNat n

/-- The bytes of an ASCII string literal. -/
def str (s : String) : GoString := s.toList.map (fun c => byteOf c.toNat)

/-- Result of a Go call: a value, a returned `error`, or a run-time panic. -/
inductive Outcome (ε α : Type) where
  | ok (value : α)
  | err (e : ε)
  | panic
  deriving DecidableEq, Repr

/-! ## Models of the Go standard library -/

/-- The two failure kinds of `strconv.ParseUint`: `strconv.ErrSyntax` and `strconv.ErrRange`. -/
inductive NumError where
  | errSyntax
  | errRange
  deriving DecidableEq, Repr

/-- Loop of `strconv.FormatUint(·, 10)`: peel decimal digits off the low end. The first
argument bounds the number of iterations; `n + 1` always suffices. -/
def formatLoop : Nat → Nat → GoString → GoString
  | 0, _, acc => acc
  | fuel + 1, n, acc =>
    if n < 10 then byteOf (48 + n) :: acc
    else formatLoop fuel (n / 10) (byteOf (48 + n % 10) :: acc)

/-- Go `strconv.FormatUint(n, 10)`: the decimal numeral of `n`, no leading zeros. -/
def FormatUint (n : Nat) : GoString := formatLoop (n + 1) n []

/-- Digit loop of `strconv.ParseUint(s, 10, bitSize)`; `n` is the `uint64` accumulator,
`cutoff = maxUint64/10 + 1`, `maxVal = 2^bitSize - 1`. -/
def parseUintLoop (cutoff maxVal : Nat) : Nat → GoString → Except NumError Nat
  | n, [] => .ok n
  | n, c :: cs =>
    if 48 ≤ c.val ∧ c.val ≤ 57 then
      let d := c.val - 48
      if n ≥ cutoff then .error .errRange
      else
        let n10 := (n * 10) % 2 ^ 64
        let n1 := (n10 + d) % 2 ^ 64
        if n1 < n10 ∨ n1 > maxVal then .error .errRange
        else parseUintLoop cutoff maxVal n1 cs
    else
      -- letters are digits of value at least 10, hence at least the base; everything
      -- else (signs and underscores included, as the base is given) is no digit
      .error .errSyntax

/-- Go `strconv.ParseUint(s, 10, bitSize)` for `1 ≤ bitSize ≤ 64`. -/
def ParseUint (s : GoString) (bitSize : Nat) : Except NumError Nat :=
  if s = [] then .error .errSyntax
  else parseUintLoop ((2 ^ 64 - 1) / 10 + 1) (2 ^ bitSize - 1) 0 s

/-- Go `unicode.IsNumber` on a rune up to `unicode.MaxLatin1`: the ASCII digits,
superscripts two, three, one and the three vulgar fractions. -/
def IsNumber (r : Nat) : Bool :=
  (48 ≤ r && r ≤ 57) || r = 0xB2 || r = 0xB3 || r = 0xB9 || r = 0xBC || r = 0xBD || r = 0xBE

/-- Go `unicode.IsLetter` on a rune up to `unicode.MaxLatin1`. -/
def IsLetter (r : Nat) : Bool :=
  (65 ≤ r && r ≤ 90) || (97 ≤ r && r ≤ 122) || r = 0xAA || r = 0xB5 || r = 0xBA ||
    (0xC0 ≤ r && r ≤ 0xD6) || (0xD8 ≤ r && r ≤ 0xF6) || (0xF8 ≤ r && r ≤ 0xFF)

/-- Go `unicode.ToUpper` on a rune up to `unicode.MaxLatin1`. -/
def ToUpper (r : Nat) : Nat :=
  if 97 ≤ r ∧ r ≤ 122 then r - 32
  else if r = 0xB5 then 0x39C
  else if (0xE0 ≤ r ∧ r ≤ 0xF6) ∨ (0xF8 ≤ r ∧ r ≤ 0xFE) then r - 32
  else if r = 0xFF then 0x178
  else r

/-- Go `string(r)` for a rune `r`: its UTF-8 encoding (surrogates and values beyond
U+10FFFF become U+FFFD). -/
def runeToString (r : Nat) : GoString :=
  if r < 0x80 then [byteOf r]
  else if r < 0x800 then [byteOf (0xC0 + r / 64), byteOf (0x80 + r % 64)]
  else if (0xD800 ≤ r ∧ r ≤ 0xDFFF) ∨ 0x10FFFF < r then [byteOf 0xEF, byteOf 0xBF, byteOf 0xBD]
  else if r < 0x10000 then
    [byteOf (0xE0 + r / 4096), byteOf (0x80 + r / 64 % 64), byteOf (0x80 + r % 64)]
  else
    [byteOf (0xF0 + r / 262144), byteOf (0x80 + r / 4096 % 64), byteOf (0x80 + r / 64 % 64),
      byteOf (0x80 + r % 64)]

/-- Go `strings.Index(s, substr)`: offset of the first occurrence, `none` for `-1`. -/
def stringsIndex : GoString → GoString → Option Nat
  | [], substr => if substr = [] then some 0 else none
  | c :: cs, substr =>
    if substr.isPrefixOf (c :: cs) then some 0
    else (stringsIndex cs substr).map (· + 1)

/-- Go `strings.IndexRune(s, r)` for an ASCII rune, that is `strings.IndexByte`. -/
def stringsIndexByte : GoString → Byte → Option Nat
  | [], _ => none
  | c :: cs, b => if c = b then some 0 else (stringsIndexByte cs b).map (· + 1)

/-- Go `uint64(x) << s`: left shift in 64 bits. -/
def shl64 (x s : Nat) : Nat := (x * 2 ^ s) % 2 ^ 64

/-- Big-endian encoding of `n` in `w` octets (`binary.BigEndian.PutUintN`). -/
def putBE : Nat → Nat → List Byte
  | 0, _ => []
  | w + 1, n => byteOf (n / 256 ^ w) :: putBE w n

/-- Big-endian value of a byte sequence (`binary.BigEndian.UintN`). -/
def getBE (bs : List Byte) : Nat := bs.foldl (fun acc b => acc * 256 + b.val) 0

/-! ## `internal/metadata/suffix.go` -/

/-- The suffix runes `K M G T P E`. -/
def byteSuffixes : List Nat := [75, 77, 71, 84, 80, 69]

/-- Constant `byteSuffixBase`. -/
def byteSuffixBase : Nat := 1024

/-- Constant `byteSuffixOffset`. -/
def byteSuffixOffset : Nat := 10

/-- The `for i := len(byteSuffixes) - 1; i >= 0; i--` loop of `AppendByteSuffix`, entered
with `i = k - 1`, followed by the final `return`. -/
def appendByteSuffixLoop (size : Nat) : Nat → GoString
  | 0 => FormatUint size
  | i + 1 =>
    let divisor := shl64 byteSuffixBase (i * byteSuffixOffset)
    if size % divisor = 0 then
      FormatUint (size / divisor) ++ runeToString (byteSuffixes.getD i 0)
    else appendByteSuffixLoop size i

/-- Go `AppendByteSuffix(size uint64) string`. -/
def AppendByteSuffix (size : Nat) : GoString :=
  appendByteSuffixLoop size byteSuffixes.length

/-- Errors of `ParseByteSuffix`, one per `fmt.Errorf` site. -/
inductive SuffixError where
  | illegalSuffix (suffix : Nat)
  | illegalSize (cause : NumError)
  | illegalSizeSuffix (suffix : Nat)
  deriving DecidableEq, Repr

/-- The `for i, s := range byteSuffixes` loop of `ParseByteSuffix` over the remaining
suffixes, `i` being the index of the first of them. -/
def parseSuffixLoop (number suffix : Nat) : Nat → List Nat → Outcome SuffixError Nat
  | _, [] => .err (.illegalSizeSuffix suffix)
  | i, s :: rest =>
    if s = suffix then
      let multiplier := shl64 byteSuffixBase (i * byteSuffixOffset)
      .ok ((number * multiplier) % 2 ^ 64)
    else parseSuffixLoop number suffix (i + 1) rest

/-- Go `ParseByteSuffix(input string) (uint64, error)`. Indexing `input[len(input)-1]`
panics on the empty string. -/
def ParseByteSuffix (input : GoString) : Outcome SuffixError Nat :=
  match input.getLast? with
  | none => .panic
  | some last =>
    let suffix : Nat := last.val
    if IsNumber suffix then
      match ParseUint input 64 with
      | .error e => .err (.illegalSize e)
      | .ok number => .ok number
    else if !IsLetter suffix then .err (.illegalSuffix suffix)
    else
      let suffix := ToUpper suffix
      match ParseUint input.dropLast 64 with
      | .error e => .err (.illegalSize e)
      | .ok number => parseSuffixLoop number suffix 0 byteSuffixes

/-! ## `internal/metadata.go`: the trailer codec -/

/-- Message `RuntimeConfiguration` of the container. -/
structure RuntimeConfiguration where
  MinimumVersion : Nat
  MaximumVersion : Nat
  InitialMemory : Nat
  MemoryLimit : Nat
  AdditionalArguments : GoString
  deriving DecidableEq, Repr

/-- Message `ApplicationConfiguration` of the container. -/
structure ApplicationConfiguration where
  MainClass : GoString
  deriving DecidableEq, Repr

/-- Message `ApplicationContainer`; the two sub-messages are pointers in Go and may be nil. -/
structure ApplicationContainer where
  CanoeVersion : GoString
  CustomWrapper : Bool
  Runtime : Option RuntimeConfiguration
  Application : Option ApplicationConfiguration
  deriving DecidableEq, Repr

/-- The serializer behind `proto.Marshal` / `proto.Unmarshal` for `ApplicationContainer`.
It lives outside the sources at hand and is a parameter of the trailer codec; `none` is a
returned error. -/
structure ProtoCodec where
  marshal : ApplicationContainer → Option (List Byte)
  unmarshal : List Byte → Option ApplicationContainer

/-- A serializer is lawful when it decodes what it encoded. -/
def ProtoCodec.Lawful (pc : ProtoCodec) : Prop :=
  ∀ c e, pc.marshal c = some e → pc.unmarshal e = some c

/-- Constant `expectedMagicNumber`. -/
def expectedMagicNumber : Nat := 0xBADC0FEE

/-- Constant `footerSize`: magic number + length. -/
def footerSize : Nat := 4 + 2

/-- Errors of the trailer codec, one per failure site of `metadata.go`. -/
inductive FooterError where
  | openTarget          -- "failed to open target"
  | seekFooter          -- "failed to seek to wrapper footer"
  | decodeMagic         -- "failed to decode magic number"
  | magicMismatch       -- "magic number mismatch"
  | decodeSize          -- "failed to decode footer size"
  | seekConfiguration   -- "failed to seek to wrapper configuration"
  | readMetadata        -- "failed to read container metadata"
  | unmarshalMetadata   -- "failed to unmarshal container metadata"
  | encodeMetadata      -- "failed to encode container metadata"
  | writeFailed         -- error returned by the writer
  deriving DecidableEq, Repr

/-- An open `os.File`: its content and the current offset. -/
structure File where
  content : List Byte
  offset : Nat
  deriving DecidableEq, Repr

/-- Go `f.Seek(off, 2)`: position relative to the end; a negative result is an error. -/
def File.seekEnd (f : File) (off : Int) : Option File :=
  let p : Int := (f.content.length : Int) + off
  if p < 0 then none else some { f with offset := p.toNat }

/-- Go `io.ReadFull(f, buf)` with `len(buf) = n`, as performed by `binary.Read`: exactly
`n` bytes or an error. -/
def File.readFull (f : File) (n : Nat) : Option (List Byte × File) :=
  let rest := f.content.drop f.offset
  if rest.length < n then none
  else some (rest.take n, { f with offset := f.offset + n })

/-- Go `f.Read(buf)` with `buf = make([]byte, n)`: the buffer afterwards (bytes read, then
the untouched zeros); `io.EOF` when `n > 0` and nothing is left. -/
def File.read (f : File) (n : Nat) : Option (List Byte × File) :=
  let rest := f.content.drop f.offset
  if n ≠ 0 ∧ rest = [] then none
  else
    let got := rest.take n
    some (got ++ List.replicate (n - got.length) 0, { f with offset := f.offset + got.length })

/-- The files that can be opened for reading, by path. -/
abbrev FileSystem := GoString → Option (List Byte)

/-- Go `ReadExecutableFooter(target string) (*metadata.ApplicationContainer, error)`. -/
def ReadExecutableFooter (pc : ProtoCodec) (fs : FileSystem) (target : GoString) :
    Outcome FooterError ApplicationContainer :=
  match fs target with
  | none => .err .openTarget
  | some content =>
    let f : File := { content := content, offset := 0 }
    match f.seekEnd (-(footerSize : Int)) with
    | none => .err .seekFooter
    | some f =>
      match f.readFull 4 with
      | none => .err .decodeMagic
      | some (magicBytes, f) =>
        let magicNumber := getBE magicBytes
        if magicNumber ≠ expectedMagicNumber then .err .magicMismatch
        else
          match f.readFull 2 with
          | none => .err .decodeSize
          | some (lengthBytes, f) =>
            let length := getBE lengthBytes
            match f.seekEnd (-((footerSize : Int) + (length : Int))) with
            | none => .err .seekConfiguration
            | some f =>
              match f.read length with
              | none => .err .readMetadata
              | some (heap, _) =>
                match pc.unmarshal heap with
                | none => .err .unmarshalMetadata
                | some container => .ok container

/-- An `io.Writer`: the bytes it has accepted and how many more it accepts (`none`: no
limit). -/
structure Writer where
  data : List Byte
  room : Option Nat
  deriving DecidableEq, Repr

/-- Go `w.Write(bs)`: the writer afterwards and whether the call succeeded; a failing
write keeps the part that fitted. -/
def Writer.write (w : Writer) (bs : List Byte) : Writer × Bool :=
  match w.room with
  | none => ({ w with data := w.data ++ bs }, true)
  | some k =>
    if bs.length ≤ k then ({ data := w.data ++ bs, room := some (k - bs.length) }, true)
    else ({ data := w.data ++ bs.take k, room := some 0 }, false)

/-- What `WriteExecutableFooter` leaves behind: the writer, the returned `int` and the
returned `error`. -/
structure WriteResult where
  writer : Writer
  length : Nat
  error : Option FooterError
  deriving DecidableEq, Repr

/-- Go `WriteExecutableFooter(writer io.Writer, meta *metadata.ApplicationContainer)
(int, error)`. -/
def WriteExecutableFooter (pc : ProtoCodec) (writer : Writer) (container : ApplicationContainer) :
    WriteResult :=
  match pc.marshal container with
  | none => { writer := writer, length := 0, error := some .encodeMetadata }
  | some encoded =>
    match writer.write encoded with
    | (w1, false) => { writer := w1, length := 0, error := some .writeFailed }
    | (w1, true) =>
      let length := encoded.length
      match w1.write (putBE 4 (expectedMagicNumber % 2 ^ 32)) with
      | (w2, false) => { writer := w2, length := length, error := some .writeFailed }
      | (w2, true) =>
        match w2.write (putBE 2 (length % 2 ^ 16)) with
        | (w3, false) => { writer := w3, length := length, error := some .writeFailed }
        | (w3, true) => { writer := w3, length := length, error := none }

/-! ## `cmd/canoegen/wrap.go`: assembling a wrapped executable -/

/-- Errors of `generate`, one per `fmt.Errorf` site. -/
inductive GenerateError where
  | createDirectory
  | openOutput
  | writeWrapper
  | writeArchive
  | finalize (cause : FooterError)
  deriving DecidableEq, Repr

/-- Go `(*wrapCommand).generate(meta, wrapper, archive, output)`. `dirReady` is false
exactly when `os.Stat(parent)` reports that the parent directory does not exist and
`os.MkdirAll` then fails (any other result of `os.Stat` goes on to open the file);
`outFile` is the result of `os.OpenFile`, the freshly truncated output file (`none`: it
could not be opened). Returns the output file and the error. -/
def generate (pc : ProtoCodec) (container : ApplicationContainer) (wrapper archive : List Byte)
    (dirReady : Bool) (outFile : Option Writer) : Option Writer × Option GenerateError :=
  if !dirReady then (none, some .createDirectory)
  else
    match outFile with
    | none => (none, some .openOutput)
    | some out =>
      match out.write wrapper with
      | (w1, false) => (some w1, some .writeWrapper)
      | (w1, true) =>
        match w1.write archive with
        | (w2, false) => (some w2, some .writeArchive)
        | (w2, true) =>
          let r := WriteExecutableFooter pc w2 container
          match r.error with
          | some e => (some r.writer, some (.finalize e))
          | none => (some r.writer, none)

/-! ## `internal/runtime`: locating a runtime -/

/-- Errors of the runtime locator: the three sentinels `ErrNotFound`, `ErrUnsupported`,
`ErrInvalidInstallation` (a wrapped sentinel is identified with the sentinel, as
`errors.Is` does) and the two unwrapped failures of the registry strategy. -/
inductive RuntimeError where
  | notFound
  | unsupported
  | invalidInstallation
  | registryFailure
  | illegalVersion
  deriving DecidableEq, Repr

/-- Result of a registry access: a value, `registry.ErrNotExist`, or another error. -/
inductive RegResult (α : Type) where
  | found (value : α)
  | notExist
  | failed
  deriving DecidableEq, Repr

/-- The Windows registry below `HKEY_LOCAL_MACHINE`, as far as the locator queries it. -/
structure Registry where
  /-- `registry.OpenKey(registry.LOCAL_MACHINE, path, registry.QUERY_VALUE)`. -/
  openKey : GoString → RegResult Unit
  /-- `GetStringValue(name)` on the opened key at `path`. -/
  getStringValue : GoString → GoString → RegResult GoString

/-- Constant `rootKey`. -/
def rootKey : GoString := str "SOFTWARE\\JavaSoft\\JDK"

/-- Constant `latestVersionKey`. -/
def latestVersionKey : GoString := str "CurrentVersion"

/-- Constant `javaHomeKey`. -/
def javaHomeKey : GoString := str "JavaHome"

/-- Go `getLatestVersion() (uint64, error)`. -/
def getLatestVersion (reg : Registry) : Outcome RuntimeError Nat :=
  match reg.openKey rootKey with
  | .notExist => .err .notFound
  | .failed => .err .registryFailure
  | .found _ =>
    match reg.getStringValue rootKey latestVersionKey with
    | .notExist => .err .notFound
    | .failed => .err .registryFailure
    | .found latestVersion =>
      match ParseUint latestVersion 32 with
      | .error _ => .err .illegalVersion
      | .ok parsedVersion => .ok parsedVersion

/-- Go `findRootForVersion(version uint64) (string, error)`. -/
def findRootForVersion (reg : Registry) (version : Nat) : Outcome RuntimeError GoString :=
  let p := rootKey ++ str "\\" ++ FormatUint version
  match reg.openKey p with
  | .notExist => .err .notFound
  | .failed => .err .registryFailure
  | .found _ =>
    match reg.getStringValue p javaHomeKey with
    | .notExist => .err .notFound
    | .failed => .err .invalidInstallation
    | .found home => .ok home

/-- Go `Find(minimumVersion uint64, maximumVersion uint64) (string, error)`; `pathJoin` is
the library function `path.Join`. -/
def Find (reg : Registry) (pathJoin : GoString → GoString → GoString)
    (minimumVersion maximumVersion : Nat) : Outcome RuntimeError GoString :=
  match getLatestVersion reg with
  | .panic => .panic
  | .err e => .err e
  | .ok latestVersion =>
    if latestVersion < minimumVersion then .err .unsupported
    else if maximumVersion ≠ 0 ∧ latestVersion > maximumVersion then .err .unsupported
    else
      match findRootForVersion reg latestVersion with
      | .panic => .panic
      | .err e => .err e
      | .ok root => .ok (pathJoin root (str "bin"))

/-- Constant `cmdVersionPrefix`. -/
def cmdVersionPrefix : GoString := str "version "

/-- What running `executableName -version` does, as far as `FindInPath` observes it. -/
structure ProbeRun where
  /-- `cmd.StderrPipe()` returns an error. -/
  pipeFails : Bool
  /-- `cmd.Start()` returns an error. -/
  startFails : Bool
  /-- The first line the process writes on its diagnostic stream, without the line feed
  that ends it but with a carriage return in front of that, if any; `none` when the
  process writes nothing. -/
  firstLine : Option GoString
  /-- `cmd.Wait()` returns an error (the process did not exit with status zero). -/
  waitFails : Bool
  deriving DecidableEq, Repr

/-- Constant `bufio.MaxScanTokenSize`, the buffer limit of a default `bufio.Scanner`. -/
def maxScanTokenSize : Nat := 64 * 1024

/-- The helper `dropCR` of `bufio.ScanLines`: drop one trailing carriage return. -/
def dropCR (data : GoString) : GoString :=
  if data.getLast? = some (byteOf 13) then data.dropLast else data

/-- The first `scanner.Scan()` and `scanner.Text()` of a default `bufio.Scanner` on the
diagnostic stream: `none` when `Scan` is false, which is the case when nothing was written
and when the first line does not fit the buffer of `maxScanTokenSize` octets together with
its line feed; otherwise the line without its carriage return. -/
def scanFirstLine : Option GoString → Option GoString
  | none => none
  | some data => if data.length < maxScanTokenSize then some (dropCR data) else none

/-- Lines 31 to 73 of `FindInPath`: run the probe and extract the major version. -/
def probeMajorVersion (run : ProbeRun) : Outcome RuntimeError Nat :=
  if run.pipeFails then .err .notFound
  else if run.startFails then .err .invalidInstallation
  else
    match scanFirstLine run.firstLine with
    | none => .err .invalidInstallation
    | some versionLine =>
      let versionOffset := stringsIndex versionLine cmdVersionPrefix
      if run.waitFails then .err .invalidInstallation
      else
        match versionOffset with
        | none => .err .invalidInstallation
        | some versionOffset =>
          let versionNumber := versionLine.drop (versionOffset + cmdVersionPrefix.length)
          match versionNumber with
          | [] => .panic
          | first :: tail =>
            let versionNumber := if first = byteOf 34 then tail else first :: tail
            match stringsIndexByte versionNumber (byteOf 46) with
            | none => .err .invalidInstallation
            | some majorSeparator =>
              let majorString := versionNumber.take majorSeparator
              match ParseUint majorString 32 with
              | .error _ => .err .invalidInstallation
              | .ok majorNumber => .ok majorNumber

/-- Go `FindInPath(executableName string, minimumVersion uint64, maximumVersion uint64)
error`; `probe` says what running a named executable with `-version` does. -/
def FindInPath (probe : GoString → ProbeRun) (executableName : GoString)
    (minimumVersion maximumVersion : Nat) : Outcome RuntimeError Unit :=
  match probeMajorVersion (probe executableName) with
  | .panic => .panic
  | .err e => .err e
  | .ok majorNumber =>
    if majorNumber < minimumVersion then .err .unsupported
    else if maximumVersion ≠ 0 ∧ majorNumber > maximumVersion then .err .unsupported
    else .ok ()

/-! ## A reference serializer

`proto.Marshal` and `proto.Unmarshal` are parameters of the trailer codec. The serializer
below is one concrete instance, used to exhibit the trailer codec on actual bytes: numbers
are eight octets big-endian, byte strings carry an eight-octet length in front, booleans
and the presence of a sub-message are one octet. -/

/-- Encode a number below `2^64`. -/
def encodeUint64 (n : Nat) : List Byte := putBE 8 n

/-- Encode a byte string: length, then content. -/
def encodeBytes (bs : GoString) : List Byte := putBE 8 bs.length ++ bs

/-- Encode a boolean. -/
def encodeBool (b : Bool) : List Byte := [if b then 1 else 0]

/-- Split off the first `n` octets. -/
def takeBytes (n : Nat) (bs : List Byte) : Option (List Byte × List Byte) :=
  if bs.length < n then none else some (bs.take n, bs.drop n)

/-- Decode a number, returning the remaining input. -/
def decodeUint64 (bs : List Byte) : Option (Nat × List Byte) :=
  match takeBytes 8 bs with
  | none => none
  | some (a, r) => some (getBE a, r)

/-- Decode a byte string, returning the remaining input. -/
def decodeBytes (bs : List Byte) : Option (GoString × List Byte) :=
  match decodeUint64 bs with
  | none => none
  | some (n, r) => takeBytes n r

/-- Decode a boolean, returning the remaining input. -/
def decodeBool : List Byte → Option (Bool × List Byte)
  | [] => none
  | b :: r => if b = 0 then some (false, r) else if b = 1 then some (true, r) else none

/-- Encode the runtime sub-message. -/
def encodeRuntime (r : RuntimeConfiguration) : List Byte :=
  encodeUint64 r.MinimumVersion ++ (encodeUint64 r.MaximumVersion ++
    (encodeUint64 r.InitialMemory ++ (encodeUint64 r.MemoryLimit ++
      encodeBytes r.AdditionalArguments)))

/-- Decode the runtime sub-message. -/
def decodeRuntime (bs : List Byte) : Option (RuntimeConfiguration × List Byte) :=
  match decodeUint64 bs with
  | none => none
  | some (minimum, r1) =>
    match decodeUint64 r1 with
    | none => none
    | some (maximum, r2) =>
      match decodeUint64 r2 with
      | none => none
      | some (initial, r3) =>
        match decodeUint64 r3 with
        | none => none
        | some (limit, r4) =>
          match decodeBytes r4 with
          | none => none
          | some (arguments, r5) => some (⟨minimum, maximum, initial, limit, arguments⟩, r5)

/-- Encode an optional sub-message: a presence octet, then the sub-message. -/
def encodeOptional {α : Type} (enc : α → List Byte) : Option α → List Byte
  | none => encodeBool false
  | some a => encodeBool true ++ enc a

/-- Decode an optional sub-message. -/
def decodeOptional {α : Type} (dec : List Byte → Option (α × List Byte)) (bs : List Byte) :
    Option (Option α × List Byte) :=
  match decodeBool bs with
  | none => none
  | some (false, r) => some (none, r)
  | some (true, r) =>
    match dec r with
    | none => none
    | some (a, r1) => some (some a, r1)

/-- Encode the application sub-message. -/
def encodeApplication (a : ApplicationConfiguration) : List Byte := encodeBytes a.MainClass

/-- Decode the application sub-message. -/
def decodeApplication (bs : List Byte) : Option (ApplicationConfiguration × List Byte) :=
  match decodeBytes bs with
  | none => none
  | some (mainClass, r) => some (⟨mainClass⟩, r)

/-- Encode a container. -/
def encodeContainer (c : ApplicationContainer) : List Byte :=
  encodeBytes c.CanoeVersion ++ (encodeBool c.CustomWrapper ++
    (encodeOptional encodeRuntime c.Runtime ++ encodeOptional encodeApplication c.Application))

/-- Decode a container, returning the remaining input. -/
def decodeContainer (bs : List Byte) : Option (ApplicationContainer × List Byte) :=
  match decodeBytes bs with
  | none => none
  | some (version, r1) =>
    match decodeBool r1 with
    | none => none
    | some (custom, r2) =>
      match decodeOptional decodeRuntime r2 with
      | none => none
      | some (runtime, r3) =>
        match decodeOptional decodeApplication r3 with
        | none => none
        | some (application, r4) => some (⟨version, custom, runtime, application⟩, r4)

/-- The numeric fields of a runtime sub-message are `uint64` values (and the string short
enough for its length to be one). -/
def RuntimeConfiguration.fits (r : RuntimeConfiguration) : Prop :=
  r.MinimumVersion < 2 ^ 64 ∧ r.MaximumVersion < 2 ^ 64 ∧ r.InitialMemory < 2 ^ 64 ∧
    r.MemoryLimit < 2 ^ 64 ∧ r.AdditionalArguments.length < 2 ^ 64

instance : DecidablePred RuntimeConfiguration.fits := fun r => by
  unfold RuntimeConfiguration.fits; infer_instance

/-- The container can be represented: every number is a `uint64` value. -/
def ApplicationContainer.fits (c : ApplicationContainer) : Prop :=
  c.CanoeVersion.length < 2 ^ 64 ∧
    (match c.Runtime with
      | none => True
      | some r => r.fits) ∧
    (match c.Application with
      | none => True
      | some a => a.MainClass.length < 2 ^ 64)

instance : DecidablePred ApplicationContainer.fits := fun c => by
  unfold ApplicationContainer.fits
  cases c.Runtime <;> cases c.Application <;> infer_instance

/-- The reference serializer as a `ProtoCodec`; decoding rejects trailing input. -/
def referenceCodec : ProtoCodec where
  marshal c := if c.fits then some (encodeContainer c) else none
  unmarshal bs :=
    match decodeContainer bs with
    | some (c, []) => some c
    | _ => none

/-- A container as `canoegen wrap` builds it. -/
def sampleContainer : ApplicationContainer :=
  { CanoeVersion := str "0.1.0"
    CustomWrapper := false
    Runtime := some
      { MinimumVersion := 11
        MaximumVersion := 0
        InitialMemory := 0
        MemoryLimit := 1073741824
        AdditionalArguments := str "-ea -Xss1m" }
    Application := some { MainClass := str "org.example.Main" } }

/-- Extra runtime arguments of 65536 octets. -/
def longArguments : GoString := List.replicate 65536 (byteOf 97)

/-- A container whose extra runtime arguments are 65536 octets long. -/
def oversizedContainer : ApplicationContainer :=
  { CanoeVersion := []
    CustomWrapper := false
    Runtime := some
      { MinimumVersion := 16
        MaximumVersion := 0
        InitialMemory := 0
        MemoryLimit := 0
        AdditionalArguments := longArguments }
    Application := some { MainClass := [] } }

/-- A file system holding one file. -/
def singleFile (path : GoString) (content : List Byte) : FileSystem :=
  fun p => if p = path then some content else none

/-- The probe of a `java` that reports version 11.0.2. -/
def demoRun : ProbeRun :=
  { pipeFails := false
    startFails := false
    firstLine := some (str "openjdk version \"11.0.2\" 2019-01-15")
    waitFails := false }

/-- A registry recording one JDK, major version 11, installed under `C:\jdk-11`. -/
def demoRegistry : Registry where
  openKey path :=
    if path = rootKey ∨ path = rootKey ++ str "\\11" then .found () else .notExist
  getStringValue path name :=
    if path = rootKey ∧ name = latestVersionKey then .found (str "11")
    else if path = rootKey ++ str "\\11" ∧ name = javaHomeKey then .found (str "C:\\jdk-11")
    else .notExist

/-- Joining two path elements with a slash, as `path.Join` does on clean elements. -/
def joinWithSlash (a b : GoString) : GoString := a ++ str "/" ++ b

/-! ## Decimal numerals (specification side) -/

/-- A decimal numeral: a non-empty sequence of ASCII digits. -/
def IsNumeral (d : GoString) : Prop := d ≠ [] ∧ ∀ c ∈ d, 48 ≤ c.val ∧ c.val ≤ 57

instance : DecidablePred IsNumeral := fun d => by unfold IsNumeral; infer_instance

/-- Value of a digit sequence read in base ten, starting from `acc`. -/
def numeralValueFrom (acc : Nat) (d : GoString) : Nat :=
  d.foldl (fun a c => a * 10 + (c.val - 48)) acc

/-- The number a decimal numeral denotes. -/
def numeralValue (d : GoString) : Nat := numeralValueFrom 0 d

/-- The suffix letter with index `i`, upper case, as a string. -/
def suffixLetter (i : Nat) : String := ["K", "M", "G", "T", "P", "E"].getD i ""

/-- The suffix letter with index `i`, lower case, as a string. -/
def suffixLetterLower (i : Nat) : String := ["k", "m", "g", "t", "p", "e"].getD i ""

/-! ## `internal/launch.go`: the launch orchestrator -/

/-- Go `strings.Split(s, sep)` for a separator of one octet: the pieces between the
occurrences of `sep`, one more than there are occurrences. -/
def stringsSplit : GoString → Byte → List GoString
  | [], _ => [[]]
  | c :: cs, sep =>
    if c = sep then [] :: stringsSplit cs sep
    else
      match stringsSplit cs sep with
      | [] => [[c]]
      | piece :: pieces => (c :: piece) :: pieces

/-- What `cmd.Run()` returns for the spawned runtime. -/
inductive ChildResult where
  /-- The value `nil`: the child ran and exited with status zero. -/
  | success
  /-- An `*exec.ExitError` whose `ExitCode()` is `code`: the child exited with that
  non-zero status (`-1` when it was terminated by a signal). -/
  | exitError (code : Int)
  /-- Any other error: the child could not be started or waited on. -/
  | otherError
  deriving DecidableEq, Repr

/-- The surroundings of one launch: the serializer, the readable files, the registry,
`path.Join`, the probe of a named executable, `os.Stat` and the execution of a command. -/
structure LaunchEnv where
  pc : ProtoCodec
  fs : FileSystem
  reg : Registry
  pathJoin : GoString → GoString → GoString
  probe : GoString → ProbeRun
  /-- `os.Stat(path)` returns an error. -/
  statFails : GoString → Bool
  /-- `exec.Command(path, arguments...).Run()`; a name without a separator is looked up
  on the process search path. -/
  run : GoString → List GoString → ChildResult

/-- What one call of `LaunchApplication` did. -/
structure LaunchTrace where
  /-- `runtime.FindInPath` was called. -/
  probedPath : Bool
  /-- The error shown in the dialog "Failed to locate valid Java Runtime". -/
  locateError : Option RuntimeError
  /-- The command that was run: executable path and argument vector. -/
  spawned : Option (GoString × List GoString)
  /-- The returned `int`; `none` when the call panicked. -/
  status : Option Int
  deriving DecidableEq, Repr

/-- Lines 48 to 52 of `LaunchApplication`: `runtime.Find`, then `runtime.FindInPath` with
`home = ""` when the error is `ErrNotFound`. Returns whether the PATH was probed, and
`home` or the error. -/
def locateRuntime (reg : Registry) (pathJoin : GoString → GoString → GoString)
    (probe : GoString → ProbeRun) (runtimeExecutable : GoString)
    (minimumVersion maximumVersion : Nat) : Bool × Outcome RuntimeError GoString :=
  match Find reg pathJoin minimumVersion maximumVersion with
  | .err .notFound =>
    match FindInPath probe runtimeExecutable minimumVersion maximumVersion with
    | .ok _ => (true, .ok [])
    | .err e => (true, .err e)
    | .panic => (true, .panic)
  | found => (false, found)

/-- Go `LaunchApplication(executable string, runtimeExecutable string) int`. Reading a
field of a nil sub-message panics. -/
def LaunchApplication (env : LaunchEnv) (executable runtimeExecutable : GoString) :
    LaunchTrace :=
  match ReadExecutableFooter env.pc env.fs executable with
  | .panic => { probedPath := false, locateError := none, spawned := none, status := none }
  | .err _ => { probedPath := false, locateError := none, spawned := none, status := some (-2) }
  | .ok cfg =>
    match cfg.Runtime with
    | none => { probedPath := false, locateError := none, spawned := none, status := none }
    | some rt =>
      match locateRuntime env.reg env.pathJoin env.probe runtimeExecutable
          rt.MinimumVersion rt.MaximumVersion with
      | (probed, .panic) =>
        { probedPath := probed, locateError := none, spawned := none, status := none }
      | (probed, .err e) =>
        { probedPath := probed, locateError := some e, spawned := none, status := some (-3) }
      | (probed, .ok home) =>
        let executablePath := env.pathJoin home runtimeExecutable
        if env.statFails executablePath then
          { probedPath := probed, locateError := none, spawned := none, status := some (-4) }
        else
          let arguments : List GoString := []
          let arguments :=
            if rt.InitialMemory ≠ 0 then
              arguments ++ [str "-Xms" ++ AppendByteSuffix rt.InitialMemory]
            else arguments
          let arguments :=
            if rt.MemoryLimit ≠ 0 then
              arguments ++ [str "-Xmx" ++ AppendByteSuffix rt.MemoryLimit]
            else arguments
          let arguments :=
            if rt.AdditionalArguments.length ≠ 0 then
              arguments ++ stringsSplit rt.AdditionalArguments (byteOf 32)
            else arguments
          let arguments := arguments ++ [str "-cp", executable]
          match cfg.Application with
          | none => { probedPath := probed, locateError := none, spawned := none, status := none }
          | some app =>
            let arguments := arguments ++ [app.MainClass]
            match env.run executablePath arguments with
            | .success =>
              { probedPath := probed, locateError := none,
                spawned := some (executablePath, arguments), status := some 0 }
            | .exitError code =>
              { probedPath := probed, locateError := none,
                spawned := some (executablePath, arguments), status := some code }
            | .otherError =>
              { probedPath := probed, locateError := none,
                spawned := some (executablePath, arguments), status := some (-5) }

/-- Lines 151 to 158 (and 160 to 167) of `(*wrapCommand).Execute`: a memory option is
parsed only when the flag is not empty, and is zero otherwise. -/
def parseMemoryOption (flag : GoString) : Outcome SuffixError Nat :=
  if flag.length ≠ 0 then ParseByteSuffix flag else .ok 0

/-! ## The launch orchestrator (specification side) -/

/-- The argument vector as the specification lists it: heap flags when set, the extra
arguments split at spaces, the class path flag with the own executable, the main class. -/
def specArguments (rt : RuntimeConfiguration) (app : ApplicationConfiguration)
    (executable : GoString) : List GoString :=
  (if rt.InitialMemory ≠ 0 then [str "-Xms" ++ AppendByteSuffix rt.InitialMemory] else []) ++
    (if rt.MemoryLimit ≠ 0 then [str "-Xmx" ++ AppendByteSuffix rt.MemoryLimit] else []) ++
    (if rt.AdditionalArguments = [] then [] else stringsSplit rt.AdditionalArguments (byteOf 32)) ++
    [str "-cp", executable, app.MainClass]

/-- Joining two path elements the way `path.Join(a, b)` does when nothing has to be
cleaned: an empty element is ignored, otherwise the two are joined by a slash. The result
is not cleaned, so this is `path.Join` only on elements that are clean, are not `.`, and
do not end in (for `b`: begin with) a slash. -/
def joinClean (a b : GoString) : GoString :=
  if a = [] then b else if b = [] then a else a ++ str "/" ++ b

/-- A registry without any record of a JDK. -/
def emptyRegistry : Registry where
  openKey _ := .notExist
  getStringValue _ _ := .notExist

/-- A registry whose record of JDK 11 lacks the `JavaHome` value. -/
def staleRegistry : Registry where
  openKey path :=
    if path = rootKey ∨ path = rootKey ++ str "\\11" then .found () else .notExist
  getStringValue path name :=
    if path = rootKey ∧ name = latestVersionKey then .found (str "11") else .notExist

/-- A wrapped executable `app` holding the sample container. -/
def sampleExecutable : FileSystem :=
  singleFile (str "app")
    ([0x4D, 0x5A] ++ (WriteExecutableFooter referenceCodec ⟨[], none⟩ sampleContainer).writer.data)

/-- A host without registry record whose search path holds a `java` of version 11, while
no file named `java` lies in the working directory. -/
def pathOnlyHost : LaunchEnv where
  pc := referenceCodec
  fs := sampleExecutable
  reg := emptyRegistry
  pathJoin := joinClean
  probe := fun _ => demoRun
  statFails := fun _ => true
  run := fun _ _ => .success

/-- A host whose registry records JDK 11 under `C:\jdk-11`, with the executable present;
the child exits with status 3. -/
def registryHost : LaunchEnv where
  pc := referenceCodec
  fs := sampleExecutable
  reg := demoRegistry
  pathJoin := joinClean
  probe := fun _ => demoRun
  statFails := fun _ => false
  run := fun _ _ => .exitError 3

/-- A run of 65536 digits `0`. -/
def longTail : GoString := List.replicate 65536 (byteOf 48)

/-- The probe of a process whose first line is `openjdk version "11.` followed by 65536
digits. -/
def longLineRun : ProbeRun :=
  { pipeFails := false
    startFails := false
    firstLine := some
      (str "openjdk " ++ str "version " ++ str "\"" ++ str "11" ++ str "." ++ longTail)
    waitFails := false }

/-- The probe of a process whose first line ends right after the marker. -/
def bareMarkerRun : ProbeRun :=
  { pipeFails := false
    startFails := false
    firstLine := some (str "java version ")
    waitFails := false }

/-- The host `pathOnlyHost` with a registry whose record of JDK 11 lacks `JavaHome`. -/
def staleHost : LaunchEnv := { pathOnlyHost with reg := staleRegistry }

/-! ## Lemmas: bytes and numerals -/

theorem byteOf_val (n : Nat) (h : n < 256) : (byteOf n).val = n := by
  show n % 256 = n
  exact Nat.mod_eq_of_lt h

theorem str_append (a b : String) : str (a ++ b) = str a ++ str b := by
  simp [str, String.data_append]

theorem le_numeralValueFrom (d : GoString) : ∀ acc, acc ≤ numeralValueFrom acc d := by
  induction d with
  | nil => intro acc; simp [numeralValueFrom]
  | cons c cs ih =>
    intro acc
    have h := ih (acc * 10 + (c.val - 48))
    simp only [numeralValueFrom, List.foldl_cons] at h ⊢
    omega

theorem numeralValueFrom_snoc (d : GoString) (c : Byte) (acc : Nat) :
    numeralValueFrom acc (d ++ [c]) = numeralValueFrom acc d * 10 + (c.val - 48) := by
  simp [numeralValueFrom, List.foldl_append]

theorem parseUintLoop_numeral (maxVal : Nat) (hmax : maxVal < 2 ^ 64) :
    ∀ (d : GoString) (acc : Nat), (∀ c ∈ d, 48 ≤ c.val ∧ c.val ≤ 57) →
      numeralValueFrom acc d ≤ maxVal →
      parseUintLoop ((2 ^ 64 - 1) / 10 + 1) maxVal acc d = .ok (numeralValueFrom acc d) := by
  intro d
  induction d with
  | nil => intro acc _ _; simp [parseUintLoop, numeralValueFrom]
  | cons c cs ih =>
    intro acc hd hv
    have hc := hd c (List.mem_cons_self _ _)
    have hcs : ∀ x ∈ cs, 48 ≤ x.val ∧ x.val ≤ 57 := fun x hx => hd x (List.mem_cons_of_mem _ hx)
    have hstep : numeralValueFrom acc (c :: cs) = numeralValueFrom (acc * 10 + (c.val - 48)) cs := by
      simp [numeralValueFrom]
    rw [hstep] at hv ⊢
    have hle := le_numeralValueFrom cs (acc * 10 + (c.val - 48))
    have hlt : acc * 10 + (c.val - 48) < 2 ^ 64 := by omega
    have h10 : acc * 10 < 2 ^ 64 := by omega
    have hcut : ¬ (acc ≥ (2 ^ 64 - 1) / 10 + 1) := by omega
    have e1 : acc * 10 % 2 ^ 64 = acc * 10 := Nat.mod_eq_of_lt h10
    have e2 : (acc * 10 + (c.val - 48)) % 2 ^ 64 = acc * 10 + (c.val - 48) := Nat.mod_eq_of_lt hlt
    have hov : ¬ (acc * 10 + (c.val - 48) < acc * 10 ∨ acc * 10 + (c.val - 48) > maxVal) := by
      omega
    rw [parseUintLoop]
    simp only [hc, and_self, if_true, hcut, if_false, e1, e2, hov]
    exact ih _ hcs hv

theorem ParseUint_numeral (d : GoString) (bitSize : Nat) (hb : bitSize ≤ 64)
    (hd : IsNumeral d) (hv : numeralValue d < 2 ^ bitSize) :
    ParseUint d bitSize = .ok (numeralValue d) := by
  have hpow : 2 ^ bitSize ≤ 2 ^ 64 := Nat.pow_le_pow_right (by decide) hb
  have hpos : 0 < 2 ^ bitSize := by positivity
  unfold ParseUint
  rw [if_neg hd.1]
  exact parseUintLoop_numeral _ (by omega) d 0 hd.2 (by unfold numeralValue at hv; omega)

theorem formatLoop_acc : ∀ (fuel n : Nat) (acc : GoString),
    formatLoop fuel n acc = formatLoop fuel n [] ++ acc := by
  intro fuel
  induction fuel with
  | zero => intro n acc; simp [formatLoop]
  | succ f ih =>
    intro n acc
    by_cases h : n < 10
    · simp [formatLoop, h]
    · simp only [formatLoop, h, if_false]
      rw [ih (n / 10) (byteOf (48 + n % 10) :: acc), ih (n / 10) [byteOf (48 + n % 10)]]
      simp

theorem formatLoop_fuel : ∀ (f1 f2 n : Nat) (acc : GoString), n < f1 → n < f2 →
    formatLoop f1 n acc = formatLoop f2 n acc := by
  intro f1
  induction f1 with
  | zero => intro f2 n acc h; omega
  | succ f ih =>
    intro f2 n acc h1 h2
    cases f2 with
    | zero => omega
    | succ g =>
      by_cases h : n < 10
      · simp [formatLoop, h]
      · simp only [formatLoop, h, if_false]
        exact ih g (n / 10) _ (by omega) (by omega)

theorem FormatUint_lt (n : Nat) (h : n < 10) : FormatUint n = [byteOf (48 + n)] := by
  simp [FormatUint, formatLoop, h]

theorem FormatUint_ge (n : Nat) (h : 10 ≤ n) :
    FormatUint n = FormatUint (n / 10) ++ [byteOf (48 + n % 10)] := by
  have h' : ¬ n < 10 := by omega
  unfold FormatUint
  rw [formatLoop]
  simp only [h', if_false]
  rw [formatLoop_acc, formatLoop_fuel n (n / 10 + 1) (n / 10) [] (by omega) (by omega)]

theorem FormatUint_spec (n : Nat) : IsNumeral (FormatUint n) ∧ numeralValue (FormatUint n) = n := by
  induction n using Nat.strong_induction_on with
  | _ n ih =>
    by_cases h : n < 10
    · rw [FormatUint_lt n h]
      have hv : (byteOf (48 + n)).val = 48 + n := byteOf_val _ (by omega)
      refine ⟨⟨by simp, ?_⟩, ?_⟩
      · intro c hc
        simp only [List.mem_singleton] at hc
        subst hc
        omega
      · simp [numeralValue, numeralValueFrom, hv]
    · rw [FormatUint_ge n (by omega)]
      obtain ⟨⟨_, hdig⟩, hval⟩ := ih (n / 10) (by omega)
      have hv : (byteOf (48 + n % 10)).val = 48 + n % 10 := byteOf_val _ (by omega)
      refine ⟨⟨by simp, ?_⟩, ?_⟩
      · intro c hc
        rcases List.mem_append.mp hc with hc | hc
        · exact hdig c hc
        · simp only [List.mem_singleton] at hc
          subst hc
          omega
      · unfold numeralValue at hval ⊢
        rw [numeralValueFrom_snoc, hval, hv]
        omega

theorem ParseUint_FormatUint (n bitSize : Nat) (hb : bitSize ≤ 64) (hn : n < 2 ^ bitSize) :
    ParseUint (FormatUint n) bitSize = .ok n := by
  have h := FormatUint_spec n
  have := ParseUint_numeral (FormatUint n) bitSize hb h.1 (by rw [h.2]; exact hn)
  rw [h.2] at this
  exact this

/-! ## Lemmas: the size-suffix codec -/

theorem digitChar_toNat (d : Nat) (h : d < 10) : (Nat.digitChar d).toNat = 48 + d := by
  interval_cases d <;> rfl

theorem formatLoop_toDigitsCore : ∀ (fuel n : Nat) (acc : List Char),
    formatLoop fuel n (acc.map (fun c => byteOf c.toNat)) =
      (Nat.toDigitsCore 10 fuel n acc).map (fun c => byteOf c.toNat) := by
  intro fuel
  induction fuel with
  | zero => intro n acc; simp [formatLoop, Nat.toDigitsCore]
  | succ f ih =>
    intro n acc
    have hd : (Nat.digitChar (n % 10)).toNat = 48 + n % 10 := digitChar_toNat _ (by omega)
    by_cases h : n < 10
    · have h0 : n / 10 = 0 := by omega
      have hm : n % 10 = n := by omega
      rw [hm] at hd
      simp [formatLoop, Nat.toDigitsCore, h, h0, hd, hm]
    · have h0 : ¬ n / 10 = 0 := by omega
      simp only [formatLoop, Nat.toDigitsCore, h, h0, if_false]
      rw [← ih (n / 10) (Nat.digitChar (n % 10) :: acc)]
      simp [hd]

theorem FormatUint_eq_repr (n : Nat) : FormatUint n = str (Nat.repr n) := by
  have h := formatLoop_toDigitsCore (n + 1) n []
  simp only [List.map_nil] at h
  simp [FormatUint, str, Nat.repr, Nat.toDigits, h, List.asString]

theorem shl64_suffix (i : Nat) (h : i < 6) :
    shl64 byteSuffixBase (i * byteSuffixOffset) = 1024 ^ (i + 1) := by
  interval_cases i <;> decide

theorem runeToString_suffix (i : Nat) (h : i < 6) :
    runeToString (byteSuffixes.getD i 0) = str (suffixLetter i) := by
  interval_cases i <;> decide

theorem appendByteSuffixLoop_spec (n : Nat) : ∀ k, k ≤ 6 →
    (appendByteSuffixLoop n k = FormatUint n ∧ ∀ i, i < k → ¬ 1024 ^ (i + 1) ∣ n) ∨
    ∃ i, i < k ∧ 1024 ^ (i + 1) ∣ n ∧ (∀ j, i < j → j < k → ¬ 1024 ^ (j + 1) ∣ n) ∧
      appendByteSuffixLoop n k = FormatUint (n / 1024 ^ (i + 1)) ++ str (suffixLetter i) := by
  intro k
  induction k with
  | zero =>
    intro _
    left
    exact ⟨rfl, fun i hi => by omega⟩
  | succ m ih =>
    intro hk
    have hm : m < 6 := by omega
    rw [appendByteSuffixLoop]
    simp only [shl64_suffix m hm, runeToString_suffix m hm]
    by_cases hdiv : n % 1024 ^ (m + 1) = 0
    · right
      refine ⟨m, by omega, Nat.dvd_of_mod_eq_zero hdiv, fun j h1 h2 => by omega, ?_⟩
      simp [hdiv]
    · have hnd : ¬ 1024 ^ (m + 1) ∣ n := fun hd => hdiv (Nat.mod_eq_zero_of_dvd hd)
      simp only [hdiv, if_false]
      rcases ih (by omega) with ⟨he, hno⟩ | ⟨i, hi, hd, hno, he⟩
      · left
        refine ⟨he, fun i hi => ?_⟩
        by_cases him : i = m
        · subst him; exact hnd
        · exact hno i (by omega)
      · right
        refine ⟨i, by omega, hd, fun j h1 h2 => ?_, he⟩
        by_cases hjm : j = m
        · subst hjm; exact hnd
        · exact hno j h1 (by omega)

theorem str_suffixLetter (i : Nat) (h : i < 6) :
    str (suffixLetter i) = [byteOf (byteSuffixes.getD i 0)] := by
  interval_cases i <;> decide

theorem str_suffixLetterLower (i : Nat) (h : i < 6) :
    str (suffixLetterLower i) = [byteOf (byteSuffixes.getD i 0 + 32)] := by
  interval_cases i <;> decide

theorem ParseByteSuffix_numeral (d : GoString) (hd : IsNumeral d) (hv : numeralValue d < 2 ^ 64) :
    ParseByteSuffix d = .ok (numeralValue d) := by
  rcases List.eq_nil_or_concat d with h | ⟨L, b, h⟩
  · exact absurd h hd.1
  · have hb := hd.2 b (by rw [h]; simp)
    have hnum : IsNumber b.val = true := by simp [IsNumber, hb]
    have hp := ParseUint_numeral d 64 (le_refl _) hd hv
    unfold ParseByteSuffix
    have hl : d.getLast? = some b := by rw [h]; simp
    rw [hl]
    simp only [hnum, if_true, hp]

theorem ParseByteSuffix_letter (d : GoString) (c : Byte) (hn : IsNumber c.val = false)
    (hl : IsLetter c.val = true) (hd : IsNumeral d) (hv : numeralValue d < 2 ^ 64) :
    ParseByteSuffix (d ++ [c]) =
      parseSuffixLoop (numeralValue d) (ToUpper c.val) 0 byteSuffixes := by
  have hp := ParseUint_numeral d 64 (le_refl _) hd hv
  unfold ParseByteSuffix
  simp [hn, hl, hp]

theorem ParseByteSuffix_suffixed (d : GoString) (i : Nat) (hi : i < 6) (hd : IsNumeral d)
    (hv : numeralValue d < 2 ^ 64) :
    ParseByteSuffix (d ++ str (suffixLetter i)) =
        .ok ((numeralValue d * 1024 ^ (i + 1)) % 2 ^ 64) ∧
      ParseByteSuffix (d ++ str (suffixLetterLower i)) =
        .ok ((numeralValue d * 1024 ^ (i + 1)) % 2 ^ 64) := by
  rw [str_suffixLetter i hi, str_suffixLetterLower i hi]
  interval_cases i
  all_goals
    constructor
    · rw [ParseByteSuffix_letter d _ (by decide) (by decide) hd hv]; rfl
    · rw [ParseByteSuffix_letter d _ (by decide) (by decide) hd hv]; rfl

theorem AppendByteSuffix_of_largest (n i : Nat) (hi : i < 6) (hd : 1024 ^ (i + 1) ∣ n)
    (hno : ∀ j, i < j → j < 6 → ¬ 1024 ^ (j + 1) ∣ n) :
    AppendByteSuffix n = str (Nat.repr (n / 1024 ^ (i + 1)) ++ suffixLetter i) := by
  have hlen : byteSuffixes.length = 6 := rfl
  unfold AppendByteSuffix
  rw [hlen]
  rcases appendByteSuffixLoop_spec n 6 (le_refl _) with ⟨_, hnone⟩ | ⟨i', hi', hd', hno', he⟩
  · exact absurd hd (hnone i hi)
  · have hii : i' = i := by
      rcases Nat.lt_trichotomy i' i with h | h | h
      · exact absurd hd (hno' i h hi)
      · exact h
      · exact absurd hd' (hno i' h hi')
    subst hii
    rw [he, FormatUint_eq_repr, str_append]

theorem not_dvd_scaled (k i j : Nat) (hk1 : 1 ≤ k) (hk : k ≤ 1023) (hij : i < j) :
    ¬ 1024 ^ (j + 1) ∣ k * 1024 ^ (i + 1) := by
  intro h
  obtain ⟨t, ht⟩ : ∃ t, j = i + (t + 1) := ⟨j - i - 1, by omega⟩
  subst ht
  have e : 1024 ^ (i + (t + 1) + 1) = 1024 ^ (t + 1) * 1024 ^ (i + 1) := by
    rw [← pow_add]; congr 1; omega
  rw [e] at h
  have h1 : 1024 ^ (t + 1) ∣ k := Nat.dvd_of_mul_dvd_mul_right (by positivity) h
  have h2 : 1024 ∣ k := dvd_trans (dvd_pow_self 1024 (Nat.succ_ne_zero t)) h1
  have := Nat.le_of_dvd (by omega) h2
  omega

/-- C6: `AppendByteSuffix n` is the decimal numeral of `n / 1024^(i+1)` followed by the
`i`-th of the letters K, M, G, T, P, E, for the largest index `i` below 6 such that
`1024^(i+1)` divides `n`; it is the plain decimal numeral of `n` when 1024 does not divide
`n`; and `AppendByteSuffix (k * 1024^(i+1))` is the numeral of `k` followed by the `i`-th
letter for `1 ≤ k ≤ 1023` (`k = 1` for E). -/
theorem AppendByteSuffix_largest_suffix (n : Nat) :
    (∀ i, i < 6 → 1024 ^ (i + 1) ∣ n → (∀ j, i < j → j < 6 → ¬ 1024 ^ (j + 1) ∣ n) →
        AppendByteSuffix n = str (Nat.repr (n / 1024 ^ (i + 1)) ++ suffixLetter i)) ∧
    (¬ 1024 ∣ n → AppendByteSuffix n = str (Nat.repr n)) ∧
    (∀ k i, 1 ≤ k → k ≤ 1023 → i < 6 → (i = 5 → k = 1) →
        AppendByteSuffix (k * 1024 ^ (i + 1)) = str (Nat.repr k ++ suffixLetter i)) := by
  refine ⟨fun i hi hd hno => AppendByteSuffix_of_largest n i hi hd hno, ?_, ?_⟩
  · intro h1024
    have hlen : byteSuffixes.length = 6 := rfl
    unfold AppendByteSuffix
    rw [hlen]
    rcases appendByteSuffixLoop_spec n 6 (le_refl _) with ⟨he, _⟩ | ⟨i, _, hd, _, _⟩
    · rw [he, FormatUint_eq_repr]
    · exact absurd (dvd_trans (dvd_pow_self 1024 (Nat.succ_ne_zero i)) hd) h1024
  · intro k i hk1 hk hi _
    have h := AppendByteSuffix_of_largest (k * 1024 ^ (i + 1)) i hi (Dvd.intro_left k rfl)
      (fun j hij _ => not_dvd_scaled k i j hk1 hk hij)
    rw [h, Nat.mul_div_cancel k (by positivity)]

/-- Witness of C6 at `n = 3 * 1024^2`, at `n = 1023` and at `k = 1023`, `i = 4`. -/
theorem AppendByteSuffix_largest_suffix_witness :
    AppendByteSuffix 3145728 = str "3M" ∧
    (¬ 1024 ∣ 1023 ∧ AppendByteSuffix 1023 = str "1023") ∧
    AppendByteSuffix (1023 * 1024 ^ (4 + 1)) = str "1023P" :=
  ⟨(AppendByteSuffix_largest_suffix 3145728).1 1 (by decide) (by decide)
      (fun j h1 h2 => by interval_cases j <;> decide),
    ⟨by decide, (AppendByteSuffix_largest_suffix 1023).2.1 (by decide)⟩,
    (AppendByteSuffix_largest_suffix 0).2.2 1023 4 (by decide) (by decide) (by decide)
      (by decide)⟩

/-- C7: for every `uint64` value `n`, parsing the output of `AppendByteSuffix n` succeeds
and gives back `n`. -/
theorem ParseByteSuffix_AppendByteSuffix (n : Nat) (hn : n < 2 ^ 64) :
    ParseByteSuffix (AppendByteSuffix n) = .ok n := by
  have hlen : byteSuffixes.length = 6 := rfl
  unfold AppendByteSuffix
  rw [hlen]
  rcases appendByteSuffixLoop_spec n 6 (le_refl _) with ⟨he, _⟩ | ⟨i, hi, hd, _, he⟩
  · have hs := FormatUint_spec n
    rw [he, ParseByteSuffix_numeral _ hs.1 (by rw [hs.2]; exact hn), hs.2]
  · have hs := FormatUint_spec (n / 1024 ^ (i + 1))
    have hq : n / 1024 ^ (i + 1) ≤ n := Nat.div_le_self _ _
    rw [he, (ParseByteSuffix_suffixed _ i hi hs.1 (by rw [hs.2]; omega)).1, hs.2,
      Nat.div_mul_cancel hd, Nat.mod_eq_of_lt hn]

/-- Witness of C7 at `n = 0`, whose formatted form is `0E`. -/
theorem ParseByteSuffix_AppendByteSuffix_witness :
    0 < 2 ^ 64 ∧ ParseByteSuffix (AppendByteSuffix 0) = .ok 0 :=
  ⟨by decide, ParseByteSuffix_AppendByteSuffix 0 (by decide)⟩

/-- C8 as stated fails: `16` is a decimal numeral of a `uint64` value, yet `16E` parses to
`0`, not to `16 * 1024^6`, because the 64-bit product wraps. -/
theorem ParseByteSuffix_wraps_16E :
    IsNumeral (str "16") ∧ numeralValue (str "16") = 16 ∧
      ParseByteSuffix (str "16" ++ str (suffixLetter 5)) = .ok 0 ∧
      ParseByteSuffix (str "16" ++ str (suffixLetter 5)) ≠ .ok (16 * 1024 ^ (5 + 1)) := by
  decide

/-- C8, amended: for a decimal numeral `d` of a `uint64` value `k`, `ParseByteSuffix d`
returns `k`; for the letter with index `i` of K, M, G, T, P, E, in upper or lower case,
`ParseByteSuffix (d ++ letter)` returns `k * 1024^(i+1)` whenever that product is below
`2^64`; and both spellings of a suffix always give the same result. -/
theorem ParseByteSuffix_value (d : GoString) (k : Nat) (hd : IsNumeral d)
    (hk : numeralValue d = k) (hk64 : k < 2 ^ 64) :
    ParseByteSuffix d = .ok k ∧
    ∀ i, i < 6 →
      (k * 1024 ^ (i + 1) < 2 ^ 64 →
        ParseByteSuffix (d ++ str (suffixLetter i)) = .ok (k * 1024 ^ (i + 1)) ∧
        ParseByteSuffix (d ++ str (suffixLetterLower i)) = .ok (k * 1024 ^ (i + 1))) ∧
      ParseByteSuffix (d ++ str (suffixLetterLower i)) =
        ParseByteSuffix (d ++ str (suffixLetter i)) := by
  subst hk
  refine ⟨ParseByteSuffix_numeral d hd hk64, fun i hi => ?_⟩
  have h := ParseByteSuffix_suffixed d i hi hd hk64
  refine ⟨fun hlt => ?_, by rw [h.1, h.2]⟩
  rw [h.1, h.2, Nat.mod_eq_of_lt hlt]
  exact ⟨rfl, rfl⟩

/-- Witness of C8, amended, at the numeral `1023`. -/
theorem ParseByteSuffix_value_witness :
    IsNumeral (str "1023") ∧ numeralValue (str "1023") = 1023 ∧
      ParseByteSuffix (str "1023") = .ok 1023 ∧
      ParseByteSuffix (str "1023" ++ str (suffixLetterLower 0)) = .ok (1023 * 1024 ^ (0 + 1)) :=
  ⟨by decide, by decide,
    (ParseByteSuffix_value (str "1023") 1023 (by decide) (by decide) (by decide)).1,
    (((ParseByteSuffix_value (str "1023") 1023 (by decide) (by decide) (by decide)).2 0
      (by decide)).1 (by decide)).2⟩

/-! ## Lemmas: big-endian fields, files and writers -/

theorem putBE_length (w n : Nat) : (putBE w n).length = w := by
  induction w with
  | zero => rfl
  | succ w ih => simp [putBE, ih]

theorem foldl_putBE (w n : Nat) : ∀ acc : Nat,
    (putBE w n).foldl (fun a (b : Byte) => a * 256 + b.val) acc = acc * 256 ^ w + n % 256 ^ w := by
  induction w with
  | zero => intro acc; simp [putBE, Nat.mod_one]
  | succ w ih =>
    intro acc
    have hb : (byteOf (n / 256 ^ w)).val = n / 256 ^ w % 256 := rfl
    simp only [putBE, List.foldl_cons, ih, hb]
    rw [Nat.mod_pow_succ, pow_succ]
    ring

theorem getBE_putBE (w n : Nat) : getBE (putBE w n) = n % 256 ^ w := by
  unfold getBE
  rw [foldl_putBE]
  simp

theorem putBE_magic : putBE 4 (expectedMagicNumber % 2 ^ 32) =
    [byteOf 0xBA, byteOf 0xDC, byteOf 0x0F, byteOf 0xEE] := by
  decide

theorem putBE_two (n : Nat) : putBE 2 n = [byteOf (n / 256), byteOf (n % 256)] := by
  have h : byteOf n = byteOf (n % 256) := by
    apply Fin.ext
    show n % 256 = n % 256 % 256
    omega
  simp [putBE, h]

theorem seekEnd_neg (f : File) (k : Nat) :
    f.seekEnd (-(k : Int)) =
      if f.content.length < k then none
      else some { f with offset := f.content.length - k } := by
  unfold File.seekEnd
  by_cases h : f.content.length < k
  · have h' : (f.content.length : Int) + -(k : Int) < 0 := by omega
    simp [h, h']
  · have h' : ¬ (f.content.length : Int) + -(k : Int) < 0 := by omega
    have e : ((f.content.length : Int) + -(k : Int)).toNat = f.content.length - k := by omega
    simp [h, h', e]

/-- What `ReadExecutableFooter` computes on a file of at least six octets. -/
theorem ReadExecutableFooter_unfold (pc : ProtoCodec) (fs : FileSystem) (target : GoString)
    (content : List Byte) (hfs : fs target = some content) (hsize : 6 ≤ content.length) :
    ReadExecutableFooter pc fs target =
      if getBE ((content.drop (content.length - 6)).take 4) ≠ expectedMagicNumber then
        .err .magicMismatch
      else if content.length < 6 + getBE ((content.drop (content.length - 2)).take 2) then
        .err .seekConfiguration
      else
        match pc.unmarshal ((content.drop
            (content.length - (6 + getBE ((content.drop (content.length - 2)).take 2)))).take
            (getBE ((content.drop (content.length - 2)).take 2))) with
        | none => .err .unmarshalMetadata
        | some container => .ok container := by
  have hn6 : ¬ content.length < 6 := by omega
  have e6 : (-(footerSize : Int)) = -((6 : Nat) : Int) := rfl
  unfold ReadExecutableFooter
  simp only [hfs]
  rw [e6, seekEnd_neg]
  simp only [hn6, if_false]
  have hr4 : ¬ (content.drop (content.length - 6)).length < 4 := by
    rw [List.length_drop]; omega
  simp only [File.readFull, hr4, if_false]
  by_cases hm : getBE ((content.drop (content.length - 6)).take 4) = expectedMagicNumber
  · have hoff : content.length - 6 + 4 = content.length - 2 := by omega
    have hr2 : ¬ (content.drop (content.length - 2)).length < 2 := by
      rw [List.length_drop]; omega
    simp only [hm, ne_eq, not_true_eq_false, if_false, hoff, hr2]
    generalize hL : getBE ((content.drop (content.length - 2)).take 2) = L
    have eL : (-((footerSize : Int) + (L : Int))) = -((6 + L : Nat) : Int) := by
      simp [footerSize]
    rw [eL, seekEnd_neg]
    by_cases hlen : content.length < 6 + L
    · simp [hlen]
    · have hne : ¬ (L ≠ 0 ∧ content.drop (content.length - (6 + L)) = []) := by
        intro h
        have := congrArg List.length h.2
        rw [List.length_drop] at this
        simp at this
        omega
      have htl : ((content.drop (content.length - (6 + L))).take L).length = L := by
        rw [List.length_take, List.length_drop]; omega
      simp only [hlen, if_false, File.read, hne, htl, Nat.sub_self, List.replicate_zero,
        List.append_nil]
  · simp [hm]

theorem Writer_write_ok (w w1 : Writer) (bs : List Byte) (h : w.write bs = (w1, true)) :
    w1.data = w.data ++ bs := by
  unfold Writer.write at h
  cases hr : w.room with
  | none =>
    rw [hr] at h
    simp only [Prod.mk.injEq, and_true] at h
    rw [← h]
  | some k =>
    rw [hr] at h
    by_cases hk : bs.length ≤ k
    · simp only [hk, if_true, Prod.mk.injEq, and_true] at h
      rw [← h]
    · simp [hk] at h

theorem Writer_write_unbounded (data bs : List Byte) :
    Writer.write ⟨data, none⟩ bs = (⟨data ++ bs, none⟩, true) := rfl

/-- A successful `WriteExecutableFooter` appends payload, magic and 16-bit length. -/
theorem WriteExecutableFooter_success (pc : ProtoCodec) (w : Writer) (c : ApplicationContainer)
    (E : List Byte) (hE : pc.marshal c = some E)
    (hok : (WriteExecutableFooter pc w c).error = none) :
    (WriteExecutableFooter pc w c).writer.data =
        w.data ++ E ++ putBE 4 (expectedMagicNumber % 2 ^ 32) ++ putBE 2 (E.length % 2 ^ 16) ∧
      (WriteExecutableFooter pc w c).length = E.length := by
  obtain ⟨w1, b1, h1⟩ : ∃ w1 b1, w.write E = (w1, b1) := ⟨_, _, rfl⟩
  obtain ⟨w2, b2, h2⟩ : ∃ w2 b2, w1.write (putBE 4 (expectedMagicNumber % 2 ^ 32)) = (w2, b2) :=
    ⟨_, _, rfl⟩
  obtain ⟨w3, b3, h3⟩ : ∃ w3 b3, w2.write (putBE 2 (E.length % 2 ^ 16)) = (w3, b3) :=
    ⟨_, _, rfl⟩
  have key : WriteExecutableFooter pc w c =
      (if b1 = false then { writer := w1, length := 0, error := some .writeFailed }
       else if b2 = false then { writer := w2, length := E.length, error := some .writeFailed }
       else if b3 = false then { writer := w3, length := E.length, error := some .writeFailed }
       else { writer := w3, length := E.length, error := none }) := by
    unfold WriteExecutableFooter
    rw [hE]
    dsimp only
    rw [h1]
    cases b1
    · rfl
    · dsimp only
      rw [h2]
      cases b2
      · rfl
      · dsimp only
        rw [h3]
        cases b3 <;> rfl
  rw [key] at hok ⊢
  cases b1
  · simp at hok
  · cases b2
    · simp at hok
    · cases b3
      · simp at hok
      · simp only [Bool.true_eq_false, if_false, and_true]
        rw [Writer_write_ok _ _ _ h3, Writer_write_ok _ _ _ h2, Writer_write_ok _ _ _ h1]

/-- On a writer without limit `WriteExecutableFooter` succeeds whenever encoding does. -/
theorem WriteExecutableFooter_unbounded (pc : ProtoCodec) (data : List Byte)
    (c : ApplicationContainer) (E : List Byte) (hE : pc.marshal c = some E) :
    WriteExecutableFooter pc ⟨data, none⟩ c =
      { writer := ⟨data ++ E ++ putBE 4 (expectedMagicNumber % 2 ^ 32) ++
          putBE 2 (E.length % 2 ^ 16), none⟩
        length := E.length
        error := none } := by
  unfold WriteExecutableFooter
  simp only [hE, Writer_write_unbounded]

/-- Reading a file that ends in a well-formed frame decodes the framed payload. -/
theorem ReadExecutableFooter_framed (pc : ProtoCodec) (fs : FileSystem) (target : GoString)
    (P E : List Byte) (hlen : E.length < 2 ^ 16)
    (hfs : fs target = some (P ++ E ++ putBE 4 (expectedMagicNumber % 2 ^ 32) ++
      putBE 2 (E.length % 2 ^ 16))) :
    ReadExecutableFooter pc fs target =
      match pc.unmarshal E with
      | none => .err .unmarshalMetadata
      | some container => .ok container := by
  have hmod : E.length % 2 ^ 16 = E.length := Nat.mod_eq_of_lt hlen
  rw [hmod] at hfs
  have hsz : (P ++ E ++ putBE 4 (expectedMagicNumber % 2 ^ 32) ++ putBE 2 E.length).length =
      P.length + E.length + 6 := by
    simp [putBE_length]; omega
  rw [ReadExecutableFooter_unfold pc fs target _ hfs (by rw [hsz]; omega), hsz]
  have d6 : (P ++ E ++ putBE 4 (expectedMagicNumber % 2 ^ 32) ++ putBE 2 E.length).drop
      (P.length + E.length + 6 - 6) =
      putBE 4 (expectedMagicNumber % 2 ^ 32) ++ putBE 2 E.length := by
    rw [List.append_assoc (P ++ E)]
    exact List.drop_left' (by simp)
  have d2 : (P ++ E ++ putBE 4 (expectedMagicNumber % 2 ^ 32) ++ putBE 2 E.length).drop
      (P.length + E.length + 6 - 2) = putBE 2 E.length :=
    List.drop_left' (by simp [putBE_length]; omega)
  have t4 : (putBE 4 (expectedMagicNumber % 2 ^ 32) ++ putBE 2 E.length).take 4 =
      putBE 4 (expectedMagicNumber % 2 ^ 32) :=
    List.take_left' (putBE_length _ _)
  have t2 : (putBE 2 E.length).take 2 = putBE 2 E.length :=
    List.take_of_length_le (by rw [putBE_length])
  have g4 : getBE (putBE 4 (expectedMagicNumber % 2 ^ 32)) = expectedMagicNumber := by decide
  have g2 : getBE (putBE 2 E.length) = E.length := by
    rw [getBE_putBE]
    exact Nat.mod_eq_of_lt (by simpa using hlen)
  rw [d6, d2, t4, t2, g4, g2]
  have dP : (P ++ E ++ putBE 4 (expectedMagicNumber % 2 ^ 32) ++ putBE 2 E.length).drop
      (P.length + E.length + 6 - (6 + E.length)) =
      E ++ (putBE 4 (expectedMagicNumber % 2 ^ 32) ++ putBE 2 E.length) := by
    rw [List.append_assoc, List.append_assoc]
    exact List.drop_left' (by omega)
  have tE : (E ++ (putBE 4 (expectedMagicNumber % 2 ^ 32) ++ putBE 2 E.length)).take E.length =
      E := List.take_left' rfl
  have hns : ¬ P.length + E.length + 6 < 6 + E.length := by omega
  rw [dP, tE]
  simp [hns]

/-! ## Lemmas: the reference serializer -/

theorem takeBytes_append (a r : List Byte) : takeBytes a.length (a ++ r) = some (a, r) := by
  simp [takeBytes]

theorem decodeUint64_encode (n : Nat) (r : List Byte) (h : n < 2 ^ 64) :
    decodeUint64 (encodeUint64 n ++ r) = some (n, r) := by
  have hl : (putBE 8 n).length = 8 := putBE_length 8 n
  have ht := takeBytes_append (putBE 8 n) r
  rw [hl] at ht
  have hv : getBE (putBE 8 n) = n := by
    rw [getBE_putBE]
    exact Nat.mod_eq_of_lt (by simpa using h)
  simp [decodeUint64, encodeUint64, ht, hv]

theorem decodeBytes_encode (s r : List Byte) (h : s.length < 2 ^ 64) :
    decodeBytes (encodeBytes s ++ r) = some (s, r) := by
  have hd := decodeUint64_encode s.length (s ++ r) h
  unfold encodeUint64 at hd
  simp [decodeBytes, encodeBytes, hd, takeBytes_append]

theorem decodeBool_encode (b : Bool) (r : List Byte) :
    decodeBool (encodeBool b ++ r) = some (b, r) := by
  cases b <;> simp [decodeBool, encodeBool]

theorem decodeRuntime_encode (c : RuntimeConfiguration) (r : List Byte) (h : c.fits) :
    decodeRuntime (encodeRuntime c ++ r) = some (c, r) := by
  obtain ⟨h1, h2, h3, h4, h5⟩ := h
  unfold decodeRuntime encodeRuntime
  simp only [List.append_assoc]
  rw [decodeUint64_encode _ _ h1]
  dsimp only
  rw [decodeUint64_encode _ _ h2]
  dsimp only
  rw [decodeUint64_encode _ _ h3]
  dsimp only
  rw [decodeUint64_encode _ _ h4]
  dsimp only
  rw [decodeBytes_encode _ _ h5]

theorem decodeApplication_encode (a : ApplicationConfiguration) (r : List Byte)
    (h : a.MainClass.length < 2 ^ 64) :
    decodeApplication (encodeApplication a ++ r) = some (a, r) := by
  unfold decodeApplication encodeApplication
  rw [decodeBytes_encode _ _ h]

theorem decodeOptional_encode {α : Type} (enc : α → List Byte)
    (dec : List Byte → Option (α × List Byte)) (o : Option α) (r : List Byte)
    (h : ∀ a, o = some a → dec (enc a ++ r) = some (a, r)) :
    decodeOptional dec (encodeOptional enc o ++ r) = some (o, r) := by
  cases o with
  | none =>
    unfold decodeOptional encodeOptional
    rw [decodeBool_encode]
  | some a =>
    unfold decodeOptional encodeOptional
    rw [List.append_assoc, decodeBool_encode]
    dsimp only
    rw [h a rfl]

theorem decodeContainer_encode (c : ApplicationContainer) (h : c.fits) (r : List Byte) :
    decodeContainer (encodeContainer c ++ r) = some (c, r) := by
  obtain ⟨version, custom, runtime, application⟩ := c
  obtain ⟨h1, h2, h3⟩ := h
  simp only at h1 h2 h3
  unfold decodeContainer encodeContainer
  simp only [List.append_assoc]
  rw [decodeBytes_encode _ _ h1]
  dsimp only
  rw [decodeBool_encode]
  dsimp only
  rw [decodeOptional_encode encodeRuntime decodeRuntime runtime _
    (fun a ha => decodeRuntime_encode a _ (by subst ha; exact h2))]
  dsimp only
  rw [decodeOptional_encode encodeApplication decodeApplication application _
    (fun a ha => decodeApplication_encode a _ (by subst ha; exact h3))]

theorem referenceCodec_lawful : referenceCodec.Lawful := by
  intro c e h
  by_cases hf : c.fits
  · simp only [referenceCodec, hf, if_true, Option.some.injEq] at h
    subst h
    have hd := decodeContainer_encode c hf []
    rw [List.append_nil] at hd
    simp [referenceCodec, hd]
  · simp [referenceCodec, hf] at h

theorem longArguments_length : longArguments.length = 65536 :=
  List.length_replicate _ _

theorem encodeContainer_length (version : GoString) (custom : Bool)
    (r : RuntimeConfiguration) (a : ApplicationConfiguration) (nv nr na : Nat)
    (hv : version.length = nv) (hr : r.AdditionalArguments.length = nr)
    (ha : a.MainClass.length = na) :
    (encodeContainer ⟨version, custom, some r, some a⟩).length = nv + nr + na + 59 := by
  subst hv hr ha
  simp only [encodeContainer, encodeBytes, encodeBool, encodeOptional, encodeRuntime,
    encodeApplication, encodeUint64, List.length_append, putBE_length, List.length_cons,
    List.length_nil]
  omega

theorem encodeContainer_oversized_length : (encodeContainer oversizedContainer).length = 65595 :=
  encodeContainer_length [] false ⟨16, 0, 0, 0, longArguments⟩ ⟨[]⟩ 0 65536 0 rfl
    longArguments_length rfl

theorem oversizedContainer_fits : oversizedContainer.fits :=
  ⟨Nat.two_pow_pos 64, ⟨by decide, by decide, by decide, by decide,
    lt_of_eq_of_lt longArguments_length (by decide)⟩, Nat.two_pow_pos 64⟩

theorem referenceCodec_marshal (c : ApplicationContainer) (h : c.fits) :
    referenceCodec.marshal c = some (encodeContainer c) :=
  if_pos h

theorem oversizedContainer_marshal :
    referenceCodec.marshal oversizedContainer = some (encodeContainer oversizedContainer) :=
  referenceCodec_marshal oversizedContainer oversizedContainer_fits

/-- With a payload of `n` octets the length field holds `n mod 2^16`. -/
theorem WriteExecutableFooter_field (pc : ProtoCodec) (c : ApplicationContainer)
    (E : List Byte) (n : Nat) (hE : pc.marshal c = some E) (hn : E.length = n) :
    (WriteExecutableFooter pc ⟨[], none⟩ c).error = none ∧
      (WriteExecutableFooter pc ⟨[], none⟩ c).length = n ∧
      (WriteExecutableFooter pc ⟨[], none⟩ c).writer.data =
        E ++ [0xBA, 0xDC, 0x0F, 0xEE] ++ putBE 2 (n % 2 ^ 16) := by
  subst hn
  rw [WriteExecutableFooter_unbounded pc [] c E hE]
  refine ⟨rfl, rfl, ?_⟩
  simp only [List.nil_append, putBE_magic]
  rfl

/-! ## The trailer codec: claims -/

/-- C1: trailer round trip. For any bytes `P` and any container `c` that the serializer
encodes in at most 65535 octets, writing the footer for `c` succeeds, and reading a file
whose content is `P` followed by the written bytes returns exactly `c`, whatever `P` is;
`generate` produces such a file from `P = wrapper ++ archive`. -/
theorem ReadExecutableFooter_WriteExecutableFooter (pc : ProtoCodec) (hpc : pc.Lawful)
    (c : ApplicationContainer) (E : List Byte) (hE : pc.marshal c = some E)
    (hlen : E.length ≤ 65535) (P : List Byte) (fs : FileSystem) (target : GoString)
    (hfs : fs target = some (P ++ (WriteExecutableFooter pc ⟨[], none⟩ c).writer.data)) :
    (WriteExecutableFooter pc ⟨[], none⟩ c).error = none ∧
      ReadExecutableFooter pc fs target = .ok c ∧
      ∀ wrapper archive, P = wrapper ++ archive →
        generate pc c wrapper archive true (some ⟨[], none⟩) =
          (some ⟨P ++ (WriteExecutableFooter pc ⟨[], none⟩ c).writer.data, none⟩, none) := by
  have hw := WriteExecutableFooter_unbounded pc [] c E hE
  rw [hw] at hfs ⊢
  refine ⟨rfl, ?_, ?_⟩
  · simp only [List.nil_append] at hfs
    have hfs' : fs target = some (P ++ E ++ putBE 4 (expectedMagicNumber % 2 ^ 32) ++
        putBE 2 (E.length % 2 ^ 16)) := by
      rw [hfs]; simp
    rw [ReadExecutableFooter_framed pc fs target P E (by omega) hfs', hpc c E hE]
  · intro wrapper archive hP
    subst hP
    have hw2 := WriteExecutableFooter_unbounded pc (wrapper ++ archive) c E hE
    simp [generate, Writer_write_unbounded, hw2]

/-- Witness of C1: the reference serializer and a container as `canoegen wrap` builds it,
behind three octets of leading content. -/
theorem ReadExecutableFooter_WriteExecutableFooter_witness :
    (encodeContainer sampleContainer).length ≤ 65535 ∧
      ReadExecutableFooter referenceCodec
        (singleFile (str "app.exe") ([0x4D, 0x5A, 0x90] ++
          (WriteExecutableFooter referenceCodec ⟨[], none⟩ sampleContainer).writer.data))
        (str "app.exe") = .ok sampleContainer :=
  ⟨by decide,
    (ReadExecutableFooter_WriteExecutableFooter referenceCodec referenceCodec_lawful
      sampleContainer (encodeContainer sampleContainer) (by decide) (by decide)
      [0x4D, 0x5A, 0x90] _ (str "app.exe") (by simp [singleFile])).2.1⟩

/-- C2: wire layout of write. When the serialized container `E` has length `L ≤ 65535` and
the writes succeed, `WriteExecutableFooter` appends exactly `E`, then the four octets
`BA DC 0F EE` (the big-endian magic `0xBADC0FEE`), then the two octets of `L` in
big-endian order. -/
theorem WriteExecutableFooter_layout (pc : ProtoCodec) (w : Writer) (c : ApplicationContainer)
    (E : List Byte) (hE : pc.marshal c = some E) (hlen : E.length ≤ 65535)
    (hok : (WriteExecutableFooter pc w c).error = none) :
    (WriteExecutableFooter pc w c).writer.data =
        w.data ++ E ++ [0xBA, 0xDC, 0x0F, 0xEE] ++
          [byteOf (E.length / 256), byteOf (E.length % 256)] ∧
      getBE [0xBA, 0xDC, 0x0F, 0xEE] = 0xBADC0FEE ∧
      getBE [byteOf (E.length / 256), byteOf (E.length % 256)] = E.length := by
  have h := (WriteExecutableFooter_success pc w c E hE hok).1
  have hmod : E.length % 2 ^ 16 = E.length := Nat.mod_eq_of_lt (by omega)
  rw [hmod, putBE_magic, putBE_two] at h
  refine ⟨h, by decide, ?_⟩
  have h1 : (byteOf (E.length / 256)).val = E.length / 256 := byteOf_val _ (by omega)
  have h2 : (byteOf (E.length % 256)).val = E.length % 256 := byteOf_val _ (by omega)
  simp only [getBE, List.foldl_cons, List.foldl_nil, h1, h2]
  omega

/-- Witness of C2: the reference serializer on a sample container, after three octets. -/
theorem WriteExecutableFooter_layout_witness :
    (WriteExecutableFooter referenceCodec ⟨[1, 2, 3], none⟩ sampleContainer).writer.data =
      [1, 2, 3] ++ encodeContainer sampleContainer ++ [0xBA, 0xDC, 0x0F, 0xEE] ++ [0, 90] :=
  (WriteExecutableFooter_layout referenceCodec ⟨[1, 2, 3], none⟩ sampleContainer
    (encodeContainer sampleContainer) (by decide) (by decide) (by decide)).1

/-- C3 fails on the code: for a container whose serialized form is 65595 octets long the
write succeeds and reports 65595 octets, but the length field it wrote holds 59, because
`uint16(length)` drops the high bits. -/
theorem WriteExecutableFooter_length_field_wraps :
    (WriteExecutableFooter referenceCodec ⟨[], none⟩ oversizedContainer).error = none ∧
      (WriteExecutableFooter referenceCodec ⟨[], none⟩ oversizedContainer).length = 65595 ∧
      (WriteExecutableFooter referenceCodec ⟨[], none⟩ oversizedContainer).writer.data =
        encodeContainer oversizedContainer ++ [0xBA, 0xDC, 0x0F, 0xEE] ++ [0, 59] ∧
      getBE ([0, 59] : List Byte) = 59 :=
  have h := WriteExecutableFooter_field referenceCodec oversizedContainer
    (encodeContainer oversizedContainer) 65595 oversizedContainer_marshal
    encodeContainer_oversized_length
  ⟨h.1, h.2.1, h.2.2, by decide⟩

/-- C4: on a file of at least six octets whose four octets at offsets
`[size - 6, size - 2)`, read as a big-endian number, differ from `0xBADC0FEE`,
`ReadExecutableFooter` fails with the magic-mismatch error, whatever the rest is. -/
theorem ReadExecutableFooter_magic_mismatch (pc : ProtoCodec) (fs : FileSystem)
    (target : GoString) (content : List Byte) (hfs : fs target = some content)
    (hsize : 6 ≤ content.length)
    (hmagic : getBE ((content.drop (content.length - 6)).take 4) ≠ 0xBADC0FEE) :
    ReadExecutableFooter pc fs target = .err .magicMismatch := by
  rw [ReadExecutableFooter_unfold pc fs target content hfs hsize]
  have h : getBE ((content.drop (content.length - 6)).take 4) ≠ expectedMagicNumber := hmagic
  simp [h]

/-- Witness of C4: a seven-octet file without the magic. -/
theorem ReadExecutableFooter_magic_mismatch_witness :
    ReadExecutableFooter referenceCodec (singleFile (str "a") [9, 0xBA, 0xDC, 0x0F, 0xEF, 0, 0])
      (str "a") = .err .magicMismatch :=
  ReadExecutableFooter_magic_mismatch referenceCodec _ (str "a") [9, 0xBA, 0xDC, 0x0F, 0xEF, 0, 0]
    (by simp [singleFile]) (by decide) (by decide)

/-- C5: `ReadExecutableFooter` returns an error (a failed seek, the truncated-file
failure) and does not panic when the file is shorter than the frame requires: on every
file shorter than six octets, and on every file of at least six octets with the correct
magic whose length field `L` satisfies `L + 6 > size`. -/
theorem ReadExecutableFooter_truncated (pc : ProtoCodec) (fs : FileSystem) (target : GoString)
    (content : List Byte) (hfs : fs target = some content) :
    (content.length < 6 → ReadExecutableFooter pc fs target = .err .seekFooter) ∧
    (6 ≤ content.length →
      getBE ((content.drop (content.length - 6)).take 4) = 0xBADC0FEE →
      getBE ((content.drop (content.length - 2)).take 2) + 6 > content.length →
      ReadExecutableFooter pc fs target = .err .seekConfiguration) := by
  constructor
  · intro hshort
    have e6 : (-(footerSize : Int)) = -((6 : Nat) : Int) := rfl
    unfold ReadExecutableFooter
    simp only [hfs]
    rw [e6, seekEnd_neg]
    simp [hshort]
  · intro hsize hmagic hL
    rw [ReadExecutableFooter_unfold pc fs target content hfs hsize]
    have h : getBE ((content.drop (content.length - 6)).take 4) = expectedMagicNumber := hmagic
    have h2 : content.length < 6 + getBE ((content.drop (content.length - 2)).take 2) := by omega
    simp [h, h2]

/-- Witness of C5: a five-octet file, and a bare footer announcing one octet of payload. -/
theorem ReadExecutableFooter_truncated_witness :
    ReadExecutableFooter referenceCodec (singleFile (str "a") [0xDC, 0x0F, 0xEE, 0, 0])
        (str "a") = .err .seekFooter ∧
      ReadExecutableFooter referenceCodec (singleFile (str "b") [0xBA, 0xDC, 0x0F, 0xEE, 0, 1])
        (str "b") = .err .seekConfiguration :=
  ⟨(ReadExecutableFooter_truncated referenceCodec _ (str "a") [0xDC, 0x0F, 0xEE, 0, 0]
      (by simp [singleFile])).1 (by decide),
    (ReadExecutableFooter_truncated referenceCodec _ (str "b") [0xBA, 0xDC, 0x0F, 0xEE, 0, 1]
      (by simp [singleFile])).2 (by decide) (by decide) (by decide)⟩

/-! ## Lemmas: the runtime locator -/

theorem cmdVersionPrefix_eq : cmdVersionPrefix = [118, 101, 114, 115, 105, 111, 110, 32] := by
  decide

theorem stringsIndex_occurs (sub : GoString) : ∀ (s : GoString) (i : Nat),
    stringsIndex s sub = some i → sub <:+: s := by
  intro s
  induction s with
  | nil =>
    intro i h
    by_cases hs : sub = []
    · subst hs; exact List.nil_infix
    · simp [stringsIndex, hs] at h
  | cons c cs ih =>
    intro i h
    by_cases hp : sub.isPrefixOf (c :: cs) = true
    · exact (List.isPrefixOf_iff_prefix.mp hp).isInfix
    · simp only [stringsIndex, hp, Bool.false_eq_true, if_false, Option.map_eq_some'] at h
      obtain ⟨j, hj, _⟩ := h
      exact (ih j hj).trans (List.suffix_cons c cs).isInfix

theorem stringsIndex_none_of_absent (s sub : GoString) (h : ¬ sub <:+: s) :
    stringsIndex s sub = none := by
  cases hi : stringsIndex s sub with
  | none => rfl
  | some i => exact absurd (stringsIndex_occurs sub s i hi) h

/-- The marker cannot start inside a non-empty `q` and run into a following copy of itself
unless it lies within `q` altogether. -/
theorem marker_prefix_overlap (q rest : GoString) (hq : q ≠ [])
    (h : cmdVersionPrefix.isPrefixOf (q ++ (cmdVersionPrefix ++ rest)) = true) :
    cmdVersionPrefix.isPrefixOf q = true := by
  rw [cmdVersionPrefix_eq] at h ⊢
  rcases q with _ | ⟨a1, _ | ⟨a2, _ | ⟨a3, _ | ⟨a4, _ | ⟨a5, _ | ⟨a6, _ | ⟨a7, _ | ⟨a8, q⟩⟩⟩⟩⟩⟩⟩⟩
  · exact absurd rfl hq
  all_goals
    simp only [List.cons_append, List.nil_append, List.isPrefixOf, Bool.and_eq_true,
      beq_iff_eq, Bool.and_true] at h ⊢
  · obtain ⟨h1, h2, _⟩ := h
    exact absurd h2 (by decide)
  · obtain ⟨h1, _, h3, _⟩ := h
    exact absurd h3 (by decide)
  · obtain ⟨h1, _, _, h4, _⟩ := h
    exact absurd h4 (by decide)
  · obtain ⟨h1, _, _, _, h5, _⟩ := h
    exact absurd h5 (by decide)
  · obtain ⟨h1, _, _, _, _, h6, _⟩ := h
    exact absurd h6 (by decide)
  · obtain ⟨h1, _, _, _, _, _, h7, _⟩ := h
    exact absurd h7 (by decide)
  · obtain ⟨h1, _, _, _, _, _, _, h8⟩ := h
    exact absurd h8 (by decide)
  · exact h

theorem stringsIndex_marker (rest : GoString) : ∀ p : GoString,
    stringsIndex p cmdVersionPrefix = none →
      stringsIndex (p ++ (cmdVersionPrefix ++ rest)) cmdVersionPrefix = some p.length := by
  intro p
  induction p with
  | nil =>
    intro _
    have hpre : cmdVersionPrefix.isPrefixOf (cmdVersionPrefix ++ rest) = true :=
      List.isPrefixOf_iff_prefix.mpr (List.prefix_append _ _)
    rw [List.nil_append]
    rw [cmdVersionPrefix_eq] at hpre ⊢
    simp only [List.cons_append] at hpre ⊢
    simp only [stringsIndex, hpre, if_true]
    rfl
  | cons c cs ih =>
    intro h
    by_cases hp : cmdVersionPrefix.isPrefixOf (c :: cs) = true
    · simp [stringsIndex, hp] at h
    · simp only [stringsIndex, hp, Bool.false_eq_true, if_false, Option.map_eq_none'] at h
      have hnot : ¬ cmdVersionPrefix.isPrefixOf (c :: cs ++ (cmdVersionPrefix ++ rest)) = true :=
        fun hh => hp (marker_prefix_overlap (c :: cs) rest (by simp) hh)
      simp only [List.cons_append] at hnot ⊢
      simp only [stringsIndex, hnot, Bool.false_eq_true, if_false, ih h]
      rfl

theorem stringsIndexByte_after (b : Byte) (r : GoString) : ∀ d : GoString,
    (∀ c ∈ d, c ≠ b) → stringsIndexByte (d ++ b :: r) b = some d.length := by
  intro d
  induction d with
  | nil => intro _; simp [stringsIndexByte]
  | cons c cs ih =>
    intro h
    have hc : c ≠ b := h c (List.mem_cons_self _ _)
    have := ih (fun x hx => h x (List.mem_cons_of_mem _ hx))
    simp [stringsIndexByte, hc, this]

theorem findRootForVersion_not_unsupported (reg : Registry) (v : Nat) :
    findRootForVersion reg v ≠ .err .unsupported := by
  unfold findRootForVersion
  simp only
  split
  · simp
  · simp
  · split <;> simp

theorem dropCR_concat (data : GoString) (b : Byte) :
    dropCR (data ++ [b]) = if b = byteOf 13 then data else data ++ [b] := by
  unfold dropCR
  by_cases h : b = byteOf 13
  · simp [h]
  · simp [h]

theorem scanFirstLine_some (data : GoString) :
    scanFirstLine (some data) =
      if data.length < maxScanTokenSize then some (dropCR data) else none :=
  rfl

theorem scanFirstLine_long (data : GoString) (h : maxScanTokenSize ≤ data.length) :
    scanFirstLine (some data) = none := by
  rw [scanFirstLine_some, if_neg (Nat.not_lt.mpr h)]

/-- A scanned line that holds a dot keeps everything up to that dot. -/
theorem scanFirstLine_form (a r : GoString)
    (hlen : (a ++ [byteOf 46] ++ r).length < maxScanTokenSize) :
    ∃ r', scanFirstLine (some (a ++ [byteOf 46] ++ r)) = some (a ++ [byteOf 46] ++ r') := by
  rw [scanFirstLine_some, if_pos hlen]
  rcases List.eq_nil_or_concat r with h | ⟨L, b, h⟩
  · subst h
    refine ⟨[], ?_⟩
    rw [List.append_nil, dropCR_concat, if_neg (by decide)]
  · subst h
    have e : a ++ [byteOf 46] ++ L.concat b = (a ++ [byteOf 46] ++ L) ++ [b] := by
      rw [List.concat_eq_append, List.append_assoc (a ++ [byteOf 46])]
    rw [e, dropCR_concat]
    by_cases hb : b = byteOf 13
    · exact ⟨L, by rw [if_pos hb]⟩
    · exact ⟨L ++ [b], by rw [if_neg hb, List.append_assoc (a ++ [byteOf 46])]⟩

theorem length_append_tail (a t : GoString) (n : Nat) (h : n ≤ t.length) :
    n ≤ (a ++ t).length := by
  rw [List.length_append]
  omega

theorem longTail_length : longTail.length = 65536 :=
  List.length_replicate _ _

/-- A first line of `maxScanTokenSize` octets or more is not delivered by the scanner. -/
theorem FindInPath_long_line (probe : GoString → ProbeRun) (executableName : GoString)
    (min max : Nat) (data : GoString) (hpipe : (probe executableName).pipeFails = false)
    (hstart : (probe executableName).startFails = false)
    (hline : (probe executableName).firstLine = some data)
    (hlen : maxScanTokenSize ≤ data.length) :
    FindInPath probe executableName min max = .err .invalidInstallation := by
  unfold FindInPath probeMajorVersion
  rw [hpipe, hstart, hline, scanFirstLine_long data hlen]
  rfl

/-- The extraction of the major version from a well-formed version line. -/
theorem probeMajorVersion_line (raw p q d r : GoString)
    (hscan : scanFirstLine (some raw) =
      some (p ++ cmdVersionPrefix ++ q ++ d ++ [byteOf 46] ++ r))
    (hp : ¬ cmdVersionPrefix <:+: p) (hq : q = [] ∨ q = [byteOf 34]) (hd : IsNumeral d)
    (hm32 : numeralValue d < 2 ^ 32) :
    probeMajorVersion
      { pipeFails := false
        startFails := false
        firstLine := some raw
        waitFails := false } = .ok (numeralValue d) := by
  have hline : p ++ cmdVersionPrefix ++ q ++ d ++ [byteOf 46] ++ r =
      p ++ (cmdVersionPrefix ++ (q ++ d ++ [byteOf 46] ++ r)) := by
    simp
  have hidx := stringsIndex_marker (q ++ d ++ [byteOf 46] ++ r) p
    (stringsIndex_none_of_absent p _ hp)
  have hdrop : (p ++ (cmdVersionPrefix ++ (q ++ d ++ [byteOf 46] ++ r))).drop
      (p.length + cmdVersionPrefix.length) = q ++ d ++ [byteOf 46] ++ r := by
    rw [← List.append_assoc]
    exact List.drop_left' (by simp)
  obtain ⟨d0, ds, hds⟩ : ∃ d0 ds, d = d0 :: ds := by
    rcases d with _ | ⟨d0, ds⟩
    · exact absurd rfl hd.1
    · exact ⟨d0, ds, rfl⟩
  have hd0 : d0 ≠ byteOf 34 := by
    intro h
    have := hd.2 d0 (by rw [hds]; exact List.mem_cons_self _ _)
    rw [h] at this
    revert this
    decide
  have hdot : ∀ c ∈ d, c ≠ byteOf 46 := by
    intro c hc h
    have := hd.2 c hc
    rw [h] at this
    revert this
    decide
  have hsep := stringsIndexByte_after (byteOf 46) r d hdot
  have hparse := ParseUint_numeral d 32 (by decide) hd hm32
  unfold probeMajorVersion
  simp only [Bool.false_eq_true, if_false, hscan, hline, hidx, hdrop]
  rcases hq with hq | hq
  · subst hq
    rw [hds] at hsep hparse ⊢
    simp only [List.nil_append, List.cons_append, hd0, if_false]
    simp only [List.append_assoc, List.cons_append, List.nil_append] at hsep ⊢
    rw [hsep]
    simp only [List.length_cons]
    have ht : (d0 :: (ds ++ byteOf 46 :: r)).take (ds.length + 1) = d0 :: ds := by
      simp
    rw [ht, hparse]
  · subst hq
    simp only [List.cons_append, List.nil_append, if_true, List.append_assoc] at hsep ⊢
    rw [hsep]
    have ht : (d ++ byteOf 46 :: r).take d.length = d := List.take_left' rfl
    simp only [ht, hparse]

/-! ## The runtime locator: claims -/

/-- C9: version range check. Whatever major version `v` the registry strategy `Find` or
the PATH strategy `FindInPath` has found, it rejects `v` as unsupported exactly when
`min ≠ 0` and `v < min`, or `max ≠ 0` and `v > max`: a bound of 0 is no bound, both bounds
are inclusive, and both strategies apply the same check. -/
theorem version_range_check (reg : Registry) (pathJoin : GoString → GoString → GoString)
    (probe : GoString → ProbeRun) (executableName : GoString) (v min max : Nat) :
    (getLatestVersion reg = .ok v →
      (Find reg pathJoin min max = .err .unsupported ↔
        (min ≠ 0 ∧ v < min) ∨ (max ≠ 0 ∧ v > max))) ∧
    (probeMajorVersion (probe executableName) = .ok v →
      (FindInPath probe executableName min max = .err .unsupported ↔
        (min ≠ 0 ∧ v < min) ∨ (max ≠ 0 ∧ v > max))) := by
  constructor
  · intro hv
    unfold Find
    rw [hv]
    dsimp only
    by_cases h1 : v < min
    · rw [if_pos h1]
      exact ⟨fun _ => Or.inl ⟨by omega, h1⟩, fun _ => rfl⟩
    · rw [if_neg h1]
      by_cases h2 : max ≠ 0 ∧ v > max
      · rw [if_pos h2]
        exact ⟨fun _ => Or.inr h2, fun _ => rfl⟩
      · rw [if_neg h2]
        have hroot := findRootForVersion_not_unsupported reg v
        constructor
        · intro h
          exfalso
          revert h hroot
          cases findRootForVersion reg v <;> simp
        · rintro (⟨_, h⟩ | h)
          · exact absurd h h1
          · exact absurd h h2
  · intro hv
    unfold FindInPath
    rw [hv]
    dsimp only
    by_cases h1 : v < min
    · rw [if_pos h1]
      exact ⟨fun _ => Or.inl ⟨by omega, h1⟩, fun _ => rfl⟩
    · rw [if_neg h1]
      by_cases h2 : max ≠ 0 ∧ v > max
      · rw [if_pos h2]
        exact ⟨fun _ => Or.inr h2, fun _ => rfl⟩
      · rw [if_neg h2]
        constructor
        · intro h
          simp at h
        · rintro (⟨_, h⟩ | h)
          · exact absurd h h1
          · exact absurd h h2

/-- Witness of C9: a registry and a `java` on the PATH that both report version 11, with
bounds `(12, 0)`. -/
theorem version_range_check_witness :
    (getLatestVersion demoRegistry = .ok 11 ∧
      Find demoRegistry joinWithSlash 12 0 = .err .unsupported) ∧
    (probeMajorVersion demoRun = .ok 11 ∧
      FindInPath (fun _ => demoRun) (str "java") 12 0 = .err .unsupported) :=
  ⟨⟨by decide,
      ((version_range_check demoRegistry joinWithSlash (fun _ => demoRun) (str "java") 11 12 0).1
        (by decide)).mpr (Or.inl ⟨by decide, by decide⟩)⟩,
    ⟨by decide,
      ((version_range_check demoRegistry joinWithSlash (fun _ => demoRun) (str "java") 11 12 0).2
        (by decide)).mpr (Or.inl ⟨by decide, by decide⟩)⟩⟩

/-- C10 as stated fails: the first line `openjdk version "11.` followed by 65536 digits has
the form `p ++ "version " ++ q ++ d ++ "." ++ r` with `d` the numeral of 11, and the
process exits with status zero, but the default `bufio.Scanner` delivers no line of 65536
octets or more: `FindInPath` reports an invalid installation where the range check on 11
with bounds `(11, 0)` succeeds. -/
theorem FindInPath_long_first_line :
    longLineRun.firstLine = some
        (str "openjdk " ++ str "version " ++ str "\"" ++ str "11" ++ str "." ++ longTail) ∧
      longLineRun.waitFails = false ∧
      ¬ str "version " <:+: str "openjdk " ∧
      IsNumeral (str "11") ∧ numeralValue (str "11") = 11 ∧
      FindInPath (fun _ => longLineRun) (str "java") 11 0 = .err .invalidInstallation ∧
      FindInPath (fun _ => longLineRun) (str "java") 11 0 ≠ .ok () :=
  have h : FindInPath (fun _ => longLineRun) (str "java") 11 0 = .err .invalidInstallation :=
    FindInPath_long_line (fun _ => longLineRun) (str "java") 11 0 _ rfl rfl rfl
      (length_append_tail _ longTail maxScanTokenSize (Nat.le_of_eq longTail_length.symm))
  ⟨rfl, rfl, by decide, by decide, by decide, h, fun hc => by rw [h] at hc; cases hc⟩

/-- C10, amended: major-version extraction of the PATH probe. When the probed process
starts, exits with status zero, and its first line is shorter than 65536 octets and is
`p ++ "version " ++ q ++ d ++ "." ++ r`, where `p` does not contain the marker
`"version "`, `q` is empty or one double quote and `d` is a decimal numeral of value
`m < 2^32`, `FindInPath` takes `m` as the major version and returns the result of the
range check on `m`. For the line `openjdk version "11.0.2" 2019-01-15` it succeeds with
bounds `(11, 0)` and fails as unsupported with bounds `(12, 0)`. -/
theorem FindInPath_major_version (probe : GoString → ProbeRun) (executableName : GoString)
    (min max : Nat) (p q d r : GoString) (m : Nat)
    (hrun : probe executableName =
      { pipeFails := false
        startFails := false
        firstLine := some (p ++ str "version " ++ q ++ d ++ str "." ++ r)
        waitFails := false })
    (hlen : (p ++ str "version " ++ q ++ d ++ str "." ++ r).length < 65536)
    (hp : ¬ str "version " <:+: p) (hq : q = [] ∨ q = str "\"") (hd : IsNumeral d)
    (hm : numeralValue d = m) (hm32 : m < 2 ^ 32) :
    probeMajorVersion (probe executableName) = .ok m ∧
      FindInPath probe executableName min max =
        (if m < min then .err .unsupported
         else if max ≠ 0 ∧ m > max then .err .unsupported
         else .ok ()) ∧
      FindInPath (fun _ => demoRun) (str "java") 11 0 = .ok () ∧
      FindInPath (fun _ => demoRun) (str "java") 12 0 = .err .unsupported := by
  subst hm
  have hmajor : probeMajorVersion (probe executableName) = .ok (numeralValue d) := by
    rw [hrun]
    obtain ⟨r', hscan⟩ := scanFirstLine_form (p ++ cmdVersionPrefix ++ q ++ d) r hlen
    exact probeMajorVersion_line _ p q d r' hscan hp hq hd hm32
  refine ⟨hmajor, ?_, by decide, by decide⟩
  unfold FindInPath
  rw [hmajor]

/-- Witness of C10, amended: the version line of an OpenJDK 11, split as
`"openjdk " ++ "version " ++ "\"" ++ "11" ++ "." ++ "0.2\" 2019-01-15"`. -/
theorem FindInPath_major_version_witness :
    probeMajorVersion demoRun = .ok 11 ∧
      FindInPath (fun _ => demoRun) (str "java") 11 17 = .ok () :=
  have h := FindInPath_major_version (fun _ => demoRun) (str "java") 11 17 (str "openjdk ")
    (str "\"") (str "11") (str "0.2\" 2019-01-15") 11 (by decide) (by decide) (by decide)
    (Or.inr rfl) (by decide) (by decide) (by decide)
  ⟨h.1, h.2.1⟩

/-! ## Lemmas: the launch orchestrator -/

theorem locateRuntime_fallback (reg : Registry) (pathJoin : GoString → GoString → GoString)
    (probe : GoString → ProbeRun) (runtimeExecutable : GoString) (min max : Nat)
    (h : Find reg pathJoin min max = .err .notFound) :
    locateRuntime reg pathJoin probe runtimeExecutable min max =
      (true,
        match FindInPath probe runtimeExecutable min max with
        | .ok _ => .ok []
        | .err e => .err e
        | .panic => .panic) := by
  unfold locateRuntime
  rw [h]
  cases FindInPath probe runtimeExecutable min max <;> rfl

theorem locateRuntime_direct (reg : Registry) (pathJoin : GoString → GoString → GoString)
    (probe : GoString → ProbeRun) (runtimeExecutable : GoString) (min max : Nat)
    (h : Find reg pathJoin min max ≠ .err .notFound) :
    locateRuntime reg pathJoin probe runtimeExecutable min max =
      (false, Find reg pathJoin min max) := by
  unfold locateRuntime
  split
  · rename_i heq
    exact absurd heq h
  · rfl

theorem LaunchApplication_unreadable (env : LaunchEnv) (executable runtimeExecutable : GoString)
    (e : FooterError) (h : ReadExecutableFooter env.pc env.fs executable = .err e) :
    LaunchApplication env executable runtimeExecutable =
      { probedPath := false, locateError := none, spawned := none, status := some (-2) } := by
  unfold LaunchApplication
  rw [h]

theorem LaunchApplication_no_runtime (env : LaunchEnv)
    (executable runtimeExecutable : GoString) (cfg : ApplicationContainer)
    (rt : RuntimeConfiguration) (probed : Bool) (e : RuntimeError)
    (hcfg : ReadExecutableFooter env.pc env.fs executable = .ok cfg)
    (hrt : cfg.Runtime = some rt)
    (hloc : locateRuntime env.reg env.pathJoin env.probe runtimeExecutable
      rt.MinimumVersion rt.MaximumVersion = (probed, .err e)) :
    LaunchApplication env executable runtimeExecutable =
      { probedPath := probed, locateError := some e, spawned := none, status := some (-3) } := by
  unfold LaunchApplication
  rw [hcfg]
  dsimp only
  rw [hrt]
  dsimp only
  rw [hloc]

theorem LaunchApplication_missing_executable (env : LaunchEnv)
    (executable runtimeExecutable : GoString) (cfg : ApplicationContainer)
    (rt : RuntimeConfiguration) (probed : Bool) (home : GoString)
    (hcfg : ReadExecutableFooter env.pc env.fs executable = .ok cfg)
    (hrt : cfg.Runtime = some rt)
    (hloc : locateRuntime env.reg env.pathJoin env.probe runtimeExecutable
      rt.MinimumVersion rt.MaximumVersion = (probed, .ok home))
    (hstat : env.statFails (env.pathJoin home runtimeExecutable) = true) :
    LaunchApplication env executable runtimeExecutable =
      { probedPath := probed, locateError := none, spawned := none, status := some (-4) } := by
  unfold LaunchApplication
  rw [hcfg]
  dsimp only
  rw [hrt]
  dsimp only
  rw [hloc]
  dsimp only
  rw [if_pos hstat]

theorem arguments_eq_specArguments (rt : RuntimeConfiguration) (app : ApplicationConfiguration)
    (executable : GoString) :
    (if rt.AdditionalArguments.length ≠ 0 then
        (if rt.MemoryLimit ≠ 0 then
            (if rt.InitialMemory ≠ 0 then
                ([] : List GoString) ++ [str "-Xms" ++ AppendByteSuffix rt.InitialMemory]
              else []) ++
              [str "-Xmx" ++ AppendByteSuffix rt.MemoryLimit]
          else
            if rt.InitialMemory ≠ 0 then
              ([] : List GoString) ++ [str "-Xms" ++ AppendByteSuffix rt.InitialMemory]
            else []) ++
          stringsSplit rt.AdditionalArguments (byteOf 32)
      else
        if rt.MemoryLimit ≠ 0 then
          (if rt.InitialMemory ≠ 0 then
              ([] : List GoString) ++ [str "-Xms" ++ AppendByteSuffix rt.InitialMemory]
            else []) ++
            [str "-Xmx" ++ AppendByteSuffix rt.MemoryLimit]
        else
          if rt.InitialMemory ≠ 0 then
            ([] : List GoString) ++ [str "-Xms" ++ AppendByteSuffix rt.InitialMemory]
          else []) ++
        [str "-cp", executable] ++
      [app.MainClass] =
    specArguments rt app executable := by
  unfold specArguments
  have hlen : rt.AdditionalArguments.length ≠ 0 ↔ rt.AdditionalArguments ≠ [] := by
    rw [ne_eq, List.length_eq_zero]
  by_cases h1 : rt.InitialMemory = 0 <;> by_cases h2 : rt.MemoryLimit = 0 <;>
    by_cases h3 : rt.AdditionalArguments = [] <;> simp [h1, h2, h3]

theorem LaunchApplication_spawns (env : LaunchEnv)
    (executable runtimeExecutable : GoString) (cfg : ApplicationContainer)
    (rt : RuntimeConfiguration) (app : ApplicationConfiguration) (probed : Bool)
    (home : GoString)
    (hcfg : ReadExecutableFooter env.pc env.fs executable = .ok cfg)
    (hrt : cfg.Runtime = some rt) (happ : cfg.Application = some app)
    (hloc : locateRuntime env.reg env.pathJoin env.probe runtimeExecutable
      rt.MinimumVersion rt.MaximumVersion = (probed, .ok home))
    (hstat : env.statFails (env.pathJoin home runtimeExecutable) = false) :
    LaunchApplication env executable runtimeExecutable =
      { probedPath := probed
        locateError := none
        spawned := some (env.pathJoin home runtimeExecutable, specArguments rt app executable)
        status := some
          (match env.run (env.pathJoin home runtimeExecutable)
              (specArguments rt app executable) with
            | .success => 0
            | .exitError code => code
            | .otherError => -5) } := by
  unfold LaunchApplication
  rw [hcfg]
  dsimp only
  rw [hrt]
  dsimp only
  rw [hloc]
  dsimp only
  rw [hstat, happ]
  simp only [Bool.false_eq_true, if_false]
  rw [arguments_eq_specArguments rt app executable]
  cases env.run (env.pathJoin home runtimeExecutable) (specArguments rt app executable) <;> rfl

theorem stringsSplit_ne_nil (sep : Byte) : ∀ s : GoString, stringsSplit s sep ≠ [] := by
  intro s
  induction s with
  | nil => simp [stringsSplit]
  | cons c cs ih =>
    unfold stringsSplit
    by_cases h : c = sep
    · simp [h]
    · simp only [h, if_false]
      cases hs : stringsSplit cs sep <;> simp

theorem stringsSplit_intercalate (sep : Byte) : ∀ s : GoString,
    List.intercalate [sep] (stringsSplit s sep) = s := by
  intro s
  induction s with
  | nil => simp [stringsSplit, List.intercalate]
  | cons c cs ih =>
    unfold stringsSplit
    cases hs : stringsSplit cs sep with
    | nil => exact absurd hs (stringsSplit_ne_nil sep cs)
    | cons piece pieces =>
      rw [hs] at ih
      by_cases h : c = sep
      · simp only [h, if_true]
        rw [← ih]
        simp [List.intercalate, List.intersperse]
      · simp only [h, if_false]
        rw [← ih]
        cases pieces <;> simp [List.intercalate, List.intersperse]

theorem stringsSplit_pieces (sep : Byte) : ∀ s : GoString,
    ∀ piece ∈ stringsSplit s sep, sep ∉ piece := by
  intro s
  induction s with
  | nil => simp [stringsSplit]
  | cons c cs ih =>
    unfold stringsSplit
    by_cases h : c = sep
    · simp only [h, if_true]
      intro piece hp
      rcases List.mem_cons.mp hp with hp | hp
      · subst hp; simp
      · exact ih piece hp
    · simp only [h, if_false]
      cases hs : stringsSplit cs sep with
      | nil => simp; exact fun hc => h hc.symm
      | cons first rest =>
        rw [hs] at ih
        intro piece hp
        rcases List.mem_cons.mp hp with hp | hp
        · subst hp
          have := ih first (List.mem_cons_self _ _)
          simp only [List.mem_cons, not_or]
          exact ⟨fun hc => h hc.symm, this⟩
        · exact ih piece (List.mem_cons_of_mem _ hp)

/-! ## The launch orchestrator: claims -/

/-- C11: combined locate. With the trailer read and its runtime section present,
`LaunchApplication` probes the PATH if and only if the registry strategy `Find` failed
with `ErrNotFound`. Any other failure of `Find` is reported as it is, with status -3 and
without probing; a success of `Find` does not probe; and a failure of the PATH probe is
reported as it is, with status -3. -/
theorem LaunchApplication_locate (env : LaunchEnv) (executable runtimeExecutable : GoString)
    (cfg : ApplicationContainer) (rt : RuntimeConfiguration)
    (hcfg : ReadExecutableFooter env.pc env.fs executable = .ok cfg)
    (hrt : cfg.Runtime = some rt) :
    ((LaunchApplication env executable runtimeExecutable).probedPath = true ↔
        Find env.reg env.pathJoin rt.MinimumVersion rt.MaximumVersion = .err .notFound) ∧
    (∀ e, Find env.reg env.pathJoin rt.MinimumVersion rt.MaximumVersion = .err e →
        e ≠ .notFound →
        LaunchApplication env executable runtimeExecutable =
          { probedPath := false, locateError := some e, spawned := none, status := some (-3) }) ∧
    (∀ home, Find env.reg env.pathJoin rt.MinimumVersion rt.MaximumVersion = .ok home →
        (LaunchApplication env executable runtimeExecutable).probedPath = false) ∧
    (Find env.reg env.pathJoin rt.MinimumVersion rt.MaximumVersion = .err .notFound →
      ∀ e, FindInPath env.probe runtimeExecutable rt.MinimumVersion rt.MaximumVersion = .err e →
        LaunchApplication env executable runtimeExecutable =
          { probedPath := true, locateError := some e, spawned := none, status := some (-3) }) := by
  have hprobed : ∀ probed res,
      locateRuntime env.reg env.pathJoin env.probe runtimeExecutable
        rt.MinimumVersion rt.MaximumVersion = (probed, res) →
      (LaunchApplication env executable runtimeExecutable).probedPath = probed := by
    intro probed res hloc
    unfold LaunchApplication
    rw [hcfg]
    dsimp only
    rw [hrt]
    dsimp only
    rw [hloc]
    cases res with
    | panic => rfl
    | err e => rfl
    | ok home =>
      dsimp only
      split
      · rfl
      · split
        · rfl
        · split <;> rfl
  refine ⟨?_, ?_, ?_, ?_⟩
  · by_cases hf : Find env.reg env.pathJoin rt.MinimumVersion rt.MaximumVersion = .err .notFound
    · rw [hprobed _ _ (locateRuntime_fallback _ _ env.probe runtimeExecutable _ _ hf)]
      exact ⟨fun _ => hf, fun _ => rfl⟩
    · rw [hprobed _ _ (locateRuntime_direct _ _ env.probe runtimeExecutable _ _ hf)]
      exact ⟨fun h => absurd h (by decide), fun h => absurd h hf⟩
  · intro e he hne
    have hf : Find env.reg env.pathJoin rt.MinimumVersion rt.MaximumVersion ≠ .err .notFound := by
      rw [he]
      intro h
      exact hne (Outcome.err.inj h)
    have hloc := locateRuntime_direct _ _ env.probe runtimeExecutable _ _ hf
    rw [he] at hloc
    exact LaunchApplication_no_runtime env executable runtimeExecutable cfg rt false e hcfg hrt
      hloc
  · intro home hh
    have hf : Find env.reg env.pathJoin rt.MinimumVersion rt.MaximumVersion ≠ .err .notFound := by
      rw [hh]
      intro h
      cases h
    exact hprobed _ _ (locateRuntime_direct _ _ env.probe runtimeExecutable _ _ hf)
  · intro hf e he
    have hloc := locateRuntime_fallback _ _ env.probe runtimeExecutable _ _ hf
    rw [he] at hloc
    exact LaunchApplication_no_runtime env executable runtimeExecutable cfg rt true e hcfg hrt
      hloc

/-- Witness of C11: a host without registry record probes the PATH; a host whose registry
records JDK 11 does not. -/
theorem LaunchApplication_locate_witness :
    (LaunchApplication pathOnlyHost (str "app") (str "java")).probedPath = true ∧
      (LaunchApplication registryHost (str "app") (str "javaw.exe")).probedPath = false :=
  ⟨((LaunchApplication_locate pathOnlyHost (str "app") (str "java") sampleContainer
      ⟨11, 0, 0, 1073741824, str "-ea -Xss1m"⟩ (by decide) rfl).1).mpr (by decide),
    (LaunchApplication_locate registryHost (str "app") (str "javaw.exe") sampleContainer
      ⟨11, 0, 0, 1073741824, str "-ea -Xss1m"⟩ (by decide) rfl).2.2.1
      (str "C:\\jdk-11/bin") (by decide)⟩

/-- C12: argument vector. Whatever command `LaunchApplication` runs, its argument vector
is, in this order: `-Xms` with the formatted initial memory if that is not zero, `-Xmx`
with the formatted memory limit if that is not zero, the pieces of the additional
arguments split at every space if they are not empty, `-cp`, the own executable, and the
main class; and it runs that command whenever it gets as far. Splitting leaves pieces
without a space whose concatenation with single spaces is the original string. For
initial memory 0, limit 1073741824 and additional arguments `-ea -Xss1m` the vector is
`-Xmx1G`, `-ea`, `-Xss1m`, `-cp`, the executable, the main class. -/
theorem LaunchApplication_arguments (env : LaunchEnv) (executable runtimeExecutable : GoString) :
    (∀ path arguments,
        (LaunchApplication env executable runtimeExecutable).spawned = some (path, arguments) →
        ∃ cfg rt app, ReadExecutableFooter env.pc env.fs executable = .ok cfg ∧
          cfg.Runtime = some rt ∧ cfg.Application = some app ∧
          arguments = specArguments rt app executable) ∧
    (∀ cfg rt app probed home, ReadExecutableFooter env.pc env.fs executable = .ok cfg →
        cfg.Runtime = some rt → cfg.Application = some app →
        locateRuntime env.reg env.pathJoin env.probe runtimeExecutable
          rt.MinimumVersion rt.MaximumVersion = (probed, .ok home) →
        env.statFails (env.pathJoin home runtimeExecutable) = false →
        (LaunchApplication env executable runtimeExecutable).spawned =
          some (env.pathJoin home runtimeExecutable, specArguments rt app executable)) ∧
    (∀ s : GoString, List.intercalate [byteOf 32] (stringsSplit s (byteOf 32)) = s ∧
        ∀ piece ∈ stringsSplit s (byteOf 32), byteOf 32 ∉ piece) ∧
    (∀ (min max : Nat) (mainClass : GoString),
        specArguments ⟨min, max, 0, 1073741824, str "-ea -Xss1m"⟩ ⟨mainClass⟩ executable =
          [str "-Xmx1G", str "-ea", str "-Xss1m", str "-cp", executable, mainClass]) := by
  refine ⟨?_, ?_, ?_, ?_⟩
  · intro path arguments hsp
    cases hcfg : ReadExecutableFooter env.pc env.fs executable with
    | panic =>
      unfold LaunchApplication at hsp
      rw [hcfg] at hsp
      simp at hsp
    | err e =>
      rw [LaunchApplication_unreadable env executable runtimeExecutable e hcfg] at hsp
      simp at hsp
    | ok cfg =>
      cases hrt : cfg.Runtime with
      | none =>
        unfold LaunchApplication at hsp
        rw [hcfg] at hsp
        dsimp only at hsp
        rw [hrt] at hsp
        simp at hsp
      | some rt =>
        obtain ⟨probed, res, hloc⟩ : ∃ probed res,
            locateRuntime env.reg env.pathJoin env.probe runtimeExecutable
              rt.MinimumVersion rt.MaximumVersion = (probed, res) := ⟨_, _, rfl⟩
        cases res with
        | panic =>
          unfold LaunchApplication at hsp
          rw [hcfg] at hsp
          dsimp only at hsp
          rw [hrt] at hsp
          dsimp only at hsp
          rw [hloc] at hsp
          simp at hsp
        | err e =>
          rw [LaunchApplication_no_runtime env executable runtimeExecutable cfg rt probed e
            hcfg hrt hloc] at hsp
          simp at hsp
        | ok home =>
          cases hstat : env.statFails (env.pathJoin home runtimeExecutable) with
          | true =>
            rw [LaunchApplication_missing_executable env executable runtimeExecutable cfg rt
              probed home hcfg hrt hloc hstat] at hsp
            simp at hsp
          | false =>
            cases happ : cfg.Application with
            | none =>
              unfold LaunchApplication at hsp
              rw [hcfg] at hsp
              dsimp only at hsp
              rw [hrt] at hsp
              dsimp only at hsp
              rw [hloc] at hsp
              dsimp only at hsp
              rw [hstat, happ] at hsp
              simp at hsp
            | some app =>
              rw [LaunchApplication_spawns env executable runtimeExecutable cfg rt app probed
                home hcfg hrt happ hloc hstat] at hsp
              simp only [Option.some.injEq, Prod.mk.injEq] at hsp
              exact ⟨cfg, rt, app, rfl, hrt, happ, hsp.2.symm⟩
  · intro cfg rt app probed home hcfg hrt happ hloc hstat
    rw [LaunchApplication_spawns env executable runtimeExecutable cfg rt app probed home hcfg
      hrt happ hloc hstat]
  · intro s
    exact ⟨stringsSplit_intercalate _ s, stringsSplit_pieces _ s⟩
  · intro min max mainClass
    have h1 : AppendByteSuffix 1073741824 = str "1G" := by decide
    have h2 : stringsSplit (str "-ea -Xss1m") (byteOf 32) = [str "-ea", str "-Xss1m"] := by
      decide
    have h3 : str "-Xmx" ++ str "1G" = str "-Xmx1G" := by decide
    have h4 : ¬ str "-ea -Xss1m" = [] := by decide
    simp [specArguments, h1, h2, h3, h4]

/-- Witness of C12: the launch on a host with a registered JDK 11 runs `javaw.exe` with
the vector of the example. -/
theorem LaunchApplication_arguments_witness :
    (LaunchApplication registryHost (str "app") (str "javaw.exe")).spawned =
      some (str "C:\\jdk-11/bin/javaw.exe",
        [str "-Xmx1G", str "-ea", str "-Xss1m", str "-cp", str "app", str "org.example.Main"]) :=
  (LaunchApplication_arguments registryHost (str "app") (str "javaw.exe")).2.1 sampleContainer
    ⟨11, 0, 0, 1073741824, str "-ea -Xss1m"⟩ ⟨str "org.example.Main"⟩ false
    (str "C:\\jdk-11/bin") (by decide) rfl rfl (by decide) (by decide)

/-- C13: exit status. `LaunchApplication` returns -2 when the trailer cannot be read, -3
when no runtime is located, -4 when `os.Stat` of the resolved executable fails, -5 when
running the child fails otherwise than by an exit status, the exit code of the child when
that is not zero, and 0 when the child exits with status zero; the four failure statuses
are pairwise distinct and negative. -/
theorem LaunchApplication_status (env : LaunchEnv) (executable runtimeExecutable : GoString) :
    (∀ e, ReadExecutableFooter env.pc env.fs executable = .err e →
        (LaunchApplication env executable runtimeExecutable).status = some (-2)) ∧
    (∀ cfg rt probed, ReadExecutableFooter env.pc env.fs executable = .ok cfg →
        cfg.Runtime = some rt →
        (∀ e, locateRuntime env.reg env.pathJoin env.probe runtimeExecutable
            rt.MinimumVersion rt.MaximumVersion = (probed, .err e) →
          (LaunchApplication env executable runtimeExecutable).status = some (-3)) ∧
        (∀ home, locateRuntime env.reg env.pathJoin env.probe runtimeExecutable
            rt.MinimumVersion rt.MaximumVersion = (probed, .ok home) →
          (env.statFails (env.pathJoin home runtimeExecutable) = true →
            (LaunchApplication env executable runtimeExecutable).status = some (-4)) ∧
          (env.statFails (env.pathJoin home runtimeExecutable) = false →
            ∀ app, cfg.Application = some app →
              (env.run (env.pathJoin home runtimeExecutable)
                  (specArguments rt app executable) = .otherError →
                (LaunchApplication env executable runtimeExecutable).status = some (-5)) ∧
              (∀ code, env.run (env.pathJoin home runtimeExecutable)
                  (specArguments rt app executable) = .exitError code →
                (LaunchApplication env executable runtimeExecutable).status = some code) ∧
              (env.run (env.pathJoin home runtimeExecutable)
                  (specArguments rt app executable) = .success →
                (LaunchApplication env executable runtimeExecutable).status = some 0)))) ∧
    ([(-2 : Int), -3, -4, -5].Nodup ∧ ∀ s ∈ [(-2 : Int), -3, -4, -5], s < 0) := by
  refine ⟨?_, ?_, by decide⟩
  · intro e he
    rw [LaunchApplication_unreadable env executable runtimeExecutable e he]
  · intro cfg rt probed hcfg hrt
    refine ⟨?_, ?_⟩
    · intro e hloc
      rw [LaunchApplication_no_runtime env executable runtimeExecutable cfg rt probed e hcfg
        hrt hloc]
    · intro home hloc
      refine ⟨?_, ?_⟩
      · intro hstat
        rw [LaunchApplication_missing_executable env executable runtimeExecutable cfg rt probed
          home hcfg hrt hloc hstat]
      · intro hstat app happ
        have h := LaunchApplication_spawns env executable runtimeExecutable cfg rt app probed
          home hcfg hrt happ hloc hstat
        refine ⟨?_, ?_, ?_⟩
        · intro hr
          rw [h, hr]
        · intro code hr
          rw [h, hr]
        · intro hr
          rw [h, hr]

/-- Witness of C13: a launch whose child exits with status 3, and a launch on a file
without trailer. -/
theorem LaunchApplication_status_witness :
    (LaunchApplication registryHost (str "app") (str "javaw.exe")).status = some 3 ∧
      (LaunchApplication registryHost (str "other") (str "javaw.exe")).status = some (-2) :=
  ⟨(((((LaunchApplication_status registryHost (str "app") (str "javaw.exe")).2.1 sampleContainer
      ⟨11, 0, 0, 1073741824, str "-ea -Xss1m"⟩ false (by decide) rfl).2
      (str "C:\\jdk-11/bin") (by decide)).2 (by decide) ⟨str "org.example.Main"⟩ rfl).2.1) 3 rfl,
    (LaunchApplication_status registryHost (str "other") (str "javaw.exe")).1 .openTarget
      (by decide)⟩

/-- C14 fails on the code: on a host without registry record whose search path holds a
working `java` of a supported version, `Find` fails with `ErrNotFound`, the PATH probe
succeeds, and `LaunchApplication` then calls `os.Stat` on the bare name `java`, which is
looked up in the working directory; it returns -4 and runs nothing. -/
theorem LaunchApplication_path_fallback_status :
    Find pathOnlyHost.reg pathOnlyHost.pathJoin 11 0 = .err .notFound ∧
      FindInPath pathOnlyHost.probe (str "java") 11 0 = .ok () ∧
      pathOnlyHost.pathJoin [] (str "java") = str "java" ∧
      LaunchApplication pathOnlyHost (str "app") (str "java") =
        { probedPath := true, locateError := none, spawned := none, status := some (-4) } := by
  decide

/-- C15 fails on the code: an executable that cannot be started makes `cmd.Start()` fail,
not `cmd.StderrPipe()`, and `FindInPath` then reports an invalid installation, not
`ErrNotFound`, for every executable name and all bounds. -/
theorem FindInPath_start_failure (executableName : GoString) (min max : Nat)
    (firstLine : Option GoString) (waitFails : Bool) :
    FindInPath
        (fun _ => { pipeFails := false, startFails := true, firstLine := firstLine,
                    waitFails := waitFails })
        executableName min max = .err .invalidInstallation ∧
      FindInPath
        (fun _ => { pipeFails := false, startFails := true, firstLine := firstLine,
                    waitFails := waitFails })
        executableName min max ≠ .err .notFound := by
  have h : FindInPath
      (fun _ => { pipeFails := false, startFails := true, firstLine := firstLine,
                  waitFails := waitFails })
      executableName min max = .err .invalidInstallation := rfl
  rw [h]
  exact ⟨rfl, by decide⟩

/-- C16 as stated fails: the registry records the current version 11, which passes the
bounds `(11, 0)`, and the entry of version 11 exists but has no `JavaHome` value; `Find`
fails with `ErrNotFound`, not with an invalid installation, and the launch falls back to
probing the PATH. -/
theorem Find_missing_JavaHome :
    getLatestVersion staleRegistry = .ok 11 ∧
      staleRegistry.openKey (rootKey ++ str "\\" ++ FormatUint 11) = .found () ∧
      staleRegistry.getStringValue (rootKey ++ str "\\" ++ FormatUint 11) javaHomeKey =
        .notExist ∧
      Find staleRegistry joinClean 11 0 = .err .notFound ∧
      Find staleRegistry joinClean 11 0 ≠ .err .invalidInstallation ∧
      (LaunchApplication staleHost (str "app") (str "java")).probedPath = true := by
  decide

/-- C16, amended: when the registry reports a current major version that passes the range
check and the entry of that version exists, `Find` fails with `ErrNotFound` if the entry
has no `JavaHome` value, so that the launch falls back to probing the PATH; it fails with
an invalid installation if the value cannot be read for another reason; and it returns the
root directory joined with `bin` if the value is present. -/
theorem Find_root_resolution (reg : Registry) (pathJoin : GoString → GoString → GoString)
    (min max v : Nat) (hv : getLatestVersion reg = .ok v) (hmin : ¬ v < min)
    (hmax : ¬ (max ≠ 0 ∧ v > max))
    (hentry : reg.openKey (rootKey ++ str "\\" ++ FormatUint v) = .found ()) :
    (reg.getStringValue (rootKey ++ str "\\" ++ FormatUint v) javaHomeKey = .notExist →
        Find reg pathJoin min max = .err .notFound ∧
        ∀ probe runtimeExecutable,
          (locateRuntime reg pathJoin probe runtimeExecutable min max).1 = true) ∧
    (reg.getStringValue (rootKey ++ str "\\" ++ FormatUint v) javaHomeKey = .failed →
        Find reg pathJoin min max = .err .invalidInstallation) ∧
    (∀ home, reg.getStringValue (rootKey ++ str "\\" ++ FormatUint v) javaHomeKey =
        .found home →
        Find reg pathJoin min max = .ok (pathJoin home (str "bin"))) := by
  have hfind : Find reg pathJoin min max =
      match findRootForVersion reg v with
      | .panic => .panic
      | .err e => .err e
      | .ok root => .ok (pathJoin root (str "bin")) := by
    unfold Find
    rw [hv]
    dsimp only
    rw [if_neg hmin, if_neg hmax]
  have hroot : findRootForVersion reg v =
      match reg.getStringValue (rootKey ++ str "\\" ++ FormatUint v) javaHomeKey with
      | .notExist => .err .notFound
      | .failed => .err .invalidInstallation
      | .found home => .ok home := by
    unfold findRootForVersion
    dsimp only
    rw [hentry]
  refine ⟨?_, ?_, ?_⟩
  · intro h
    have hf : Find reg pathJoin min max = .err .notFound := by
      rw [hfind, hroot, h]
    refine ⟨hf, fun probe runtimeExecutable => ?_⟩
    rw [locateRuntime_fallback reg pathJoin probe runtimeExecutable min max hf]
  · intro h
    rw [hfind, hroot, h]
  · intro home h
    rw [hfind, hroot, h]

/-- Witness of C16, amended: a registry with the `JavaHome` value and one without. -/
theorem Find_root_resolution_witness :
    Find demoRegistry joinClean 11 0 = .ok (joinClean (str "C:\\jdk-11") (str "bin")) ∧
      Find staleRegistry joinClean 11 0 = .err .notFound :=
  ⟨(Find_root_resolution demoRegistry joinClean 11 0 11 (by decide) (by decide) (by decide)
      (by decide)).2.2 (str "C:\\jdk-11") (by decide),
    ((Find_root_resolution staleRegistry joinClean 11 0 11 (by decide) (by decide) (by decide)
      (by decide)).1 (by decide)).1⟩

/-- C17 fails on the code: when the first line of a process that exits with status zero
ends right after the marker `"version "`, indexing `versionNumber[0]` is out of range and
`FindInPath` panics, for every executable name and all bounds. -/
theorem FindInPath_bare_marker (executableName : GoString) (min max : Nat) :
    bareMarkerRun.waitFails = false ∧
      bareMarkerRun.firstLine = some (str "java version ") ∧
      FindInPath (fun _ => bareMarkerRun) executableName min max = .panic := by
  have h : probeMajorVersion bareMarkerRun = .panic := by decide
  refine ⟨rfl, rfl, ?_⟩
  unfold FindInPath
  rw [h]

theorem parseUintLoop_le (cutoff maxVal : Nat) : ∀ (s : GoString) (acc n : Nat),
    acc ≤ maxVal → parseUintLoop cutoff maxVal acc s = .ok n → n ≤ maxVal := by
  intro s
  induction s with
  | nil =>
    intro acc n hacc h
    simp only [parseUintLoop, Except.ok.injEq] at h
    omega
  | cons c cs ih =>
    intro acc n hacc h
    rw [parseUintLoop] at h
    split at h
    · split at h
      · cases h
      · dsimp only at h
        split at h
        · cases h
        · rename_i hn
          exact ih _ n (by omega) h
    · cases h

theorem ParseUint_lt (s : GoString) (n : Nat) (h : ParseUint s 64 = .ok n) : n < 2 ^ 64 := by
  unfold ParseUint at h
  split at h
  · cases h
  · have := parseUintLoop_le _ _ s 0 n (Nat.zero_le _) h
    omega

theorem parseSuffixLoop_total (number suffix : Nat) : ∀ (l : List Nat) (i : Nat),
    (∃ n, parseSuffixLoop number suffix i l = .ok n ∧ n < 2 ^ 64) ∨
      ∃ e, parseSuffixLoop number suffix i l = .err e := by
  intro l
  induction l with
  | nil => intro i; right; exact ⟨_, rfl⟩
  | cons s rest ih =>
    intro i
    unfold parseSuffixLoop
    by_cases h : s = suffix
    · left
      simp only [h, if_true]
      exact ⟨_, rfl, Nat.mod_lt _ (by positivity)⟩
    · simp only [h, if_false]
      exact ih (i + 1)

/-- C18 as stated fails: on the empty string `ParseByteSuffix` indexes `input[-1]` and
panics. -/
theorem ParseByteSuffix_empty : ParseByteSuffix [] = .panic := by
  decide

/-- C18, amended: on every non-empty input `ParseByteSuffix` returns a `uint64` byte count
or an error, without indexing out of range; and `wrapCommand.Execute`, which parses a
memory option only when the flag is not empty, gets a byte count or an error for every
flag. -/
theorem ParseByteSuffix_total (input : GoString) :
    (input ≠ [] →
      (∃ n, ParseByteSuffix input = .ok n ∧ n < 2 ^ 64) ∨
        ∃ e, ParseByteSuffix input = .err e) ∧
    ((∃ n, parseMemoryOption input = .ok n ∧ n < 2 ^ 64) ∨
      ∃ e, parseMemoryOption input = .err e) := by
  have hne : input ≠ [] →
      (∃ n, ParseByteSuffix input = .ok n ∧ n < 2 ^ 64) ∨
        ∃ e, ParseByteSuffix input = .err e := by
    intro h
    rcases List.eq_nil_or_concat input with h0 | ⟨L, b, hL⟩
    · exact absurd h0 h
    · have hl : input.getLast? = some b := by rw [hL]; simp
      unfold ParseByteSuffix
      rw [hl]
      dsimp only
      split
      · cases hp : ParseUint input 64 with
        | error e => right; exact ⟨_, rfl⟩
        | ok n => left; exact ⟨n, rfl, ParseUint_lt input n hp⟩
      · split
        · right; exact ⟨_, rfl⟩
        · cases hp : ParseUint input.dropLast 64 with
          | error e => right; exact ⟨_, rfl⟩
          | ok n => exact parseSuffixLoop_total n _ byteSuffixes 0
  refine ⟨hne, ?_⟩
  unfold parseMemoryOption
  by_cases h : input = []
  · subst h
    left
    exact ⟨0, rfl, by decide⟩
  · have hlen : input.length ≠ 0 := by
      rw [ne_eq, List.length_eq_zero]
      exact h
    rw [if_pos hlen]
    exact hne h

/-- Witness of C18, amended: an unknown suffix letter and a well-formed size. -/
theorem ParseByteSuffix_total_witness :
    ((∃ n, ParseByteSuffix (str "5X") = .ok n ∧ n < 2 ^ 64) ∨
        ∃ e, ParseByteSuffix (str "5X") = .err e) ∧
      ParseByteSuffix (str "5X") = .err (.illegalSizeSuffix 88) ∧
      ParseByteSuffix (str "512m") = .ok 536870912 :=
  ⟨(ParseByteSuffix_total (str "5X")).1 (by decide), by decide, by decide⟩

/-- On a process that exits with status zero and whose first line the scanner delivers,
the extraction of the major version panics exactly when nothing follows the marker;
otherwise it reports an invalid installation or yields a number. -/
theorem probeMajorVersion_outcomes (raw line : GoString)
    (hscan : scanFirstLine (some raw) = some line) :
    (probeMajorVersion ⟨false, false, some raw, false⟩ = .panic ↔
      ∃ off, stringsIndex line cmdVersionPrefix = some off ∧
        line.drop (off + cmdVersionPrefix.length) = []) ∧
    (probeMajorVersion ⟨false, false, some raw, false⟩ = .panic ∨
      probeMajorVersion ⟨false, false, some raw, false⟩ = .err .invalidInstallation ∨
      ∃ m, probeMajorVersion ⟨false, false, some raw, false⟩ = .ok m) := by
  unfold probeMajorVersion
  simp only [Bool.false_eq_true, if_false, hscan]
  cases hidx : stringsIndex line cmdVersionPrefix with
  | none => simp
  | some off =>
    dsimp only
    cases hd : line.drop (off + cmdVersionPrefix.length) with
    | nil =>
      have hle := List.drop_eq_nil_iff.mp hd
      simp [hle]
    | cons first tail =>
      have hlt : off + cmdVersionPrefix.length < line.length := by
        by_contra hc
        have hnil := List.drop_eq_nil_iff.mpr (Nat.le_of_not_lt hc)
        rw [hnil] at hd
        cases hd
      dsimp only
      cases hsep : stringsIndexByte (if first = byteOf 34 then tail else first :: tail)
          (byteOf 46) with
      | none => simp [hlt]
      | some sep =>
        dsimp only
        cases hp : ParseUint ((if first = byteOf 34 then tail else first :: tail).take sep) 32 with
        | error e => simp [hlt]
        | ok m => simp [hlt]

end Canoe
